import Mathlib

/-!
Scene graph timeline model: event decomposition and row flattening

A shallow embedding of `src/plugins/qmlprofiler/scenegraphtimelinemodel.cpp`.

* The timeline base class keeps the ranges `(start, duration, selectionId)`; the model keeps
  the parallel vector `m_data` of `SceneGraphEvent (typeId, rowNumberCollapsed, glyphCount)`.
  Both are lists here, index `i` of one belonging to index `i` of the other.
* `qint64` and `int` values are `Int`; signed overflow is undefined behaviour in C++ and is
  not part of the model. Where a `qint64` is passed to an `int` parameter (the glyph count
  of an adaptation layer frame) the value is narrowed by `narrowToInt`. Row candidates, which
  start at a category ordinal and only grow, are `Nat` while they index `eventEndTimes`.
* `computeNesting` and `updateProgress` belong to the base class, write no field that is
  modelled here, and are left out.
-/

set_option autoImplicit false

namespace QmlProfilerExtension

/-! ## Data model -/

/-- The stages, in the order of the `StageLabels` table (one label per stage). -/
inductive SceneGraphStage where
  | Polish
  | Wait
  | GUIThreadSync
  | Animations
  | RenderThreadSync
  | Render
  | Swap
  | RenderPreprocess
  | RenderUpdate
  | RenderBind
  | RenderRender
  | Material
  | GlyphRender
  | GlyphStore
  | TextureBind
  | TextureConvert
  | TextureSwizzle
  | TextureUpload
  | TextureMipmap
  | TextureDeletion
  deriving DecidableEq, Repr

/-- The integer value of a stage: its position in `StageLabels`. -/
def SceneGraphStage.toInt : SceneGraphStage → Int
  | .Polish => 0
  | .Wait => 1
  | .GUIThreadSync => 2
  | .Animations => 3
  | .RenderThreadSync => 4
  | .Render => 5
  | .Swap => 6
  | .RenderPreprocess => 7
  | .RenderUpdate => 8
  | .RenderBind => 9
  | .RenderRender => 10
  | .Material => 11
  | .GlyphRender => 12
  | .GlyphStore => 13
  | .TextureBind => 14
  | .TextureConvert => 15
  | .TextureSwizzle => 16
  | .TextureUpload => 17
  | .TextureMipmap => 18
  | .TextureDeletion => 19

/-- Modelled from the spec: the enum `SceneGraphStage` of `scenegraphtimelinemodel.h` is
missing. The first stage that is not a GUI thread stage is Render Thread Sync. -/
def MaximumGUIThreadStage : Int := 4

/-- Modelled from the spec: the enum `SceneGraphStage` of `scenegraphtimelinemodel.h` is
missing. The first stage that is not a render thread stage is Render Preprocess. -/
def MaximumRenderThreadStage : Int := 7

/-- The number of stages; the static assertion ties it to the 20 entries of `StageLabels`. -/
def MaximumSceneGraphStage : Int := 20

/-- The enum `SceneGraphCategoryType`, first value. -/
def SceneGraphGUIThread : Nat := 0

/-- The enum `SceneGraphCategoryType`, second value. -/
def SceneGraphRenderThread : Nat := 1

/-- The enum `SceneGraphCategoryType`, third value. -/
def SceneGraphRenderThreadDetails : Nat := 2

/-- Modelled from the spec: the default value of the parameter `glyphCount` of `insert` is
declared in the missing header; the interval then has no glyph count, and `details` shows a
glyph count only when it is `>= 0`. -/
def noGlyphCount : Int := -1

/-- One range of the timeline base class. -/
structure Range where
  start : Int
  duration : Int
  selectionId : Int
  deriving DecidableEq, Repr, Inhabited

/-- The per-interval data of the model, `SceneGraphTimelineModel::SceneGraphEvent`. -/
structure SceneGraphEvent where
  typeId : Int
  rowNumberCollapsed : Int
  glyphCount : Int
  deriving DecidableEq, Repr, Inhabited

/-- The constructor `SceneGraphEvent(typeId, glyphCount)`. -/
def SceneGraphEvent.mk2 (typeId glyphCount : Int) : SceneGraphEvent :=
  { typeId := typeId, rowNumberCollapsed := -1, glyphCount := glyphCount }

/-- The state of a `SceneGraphTimelineModel`. -/
structure SceneGraphTimelineModel where
  ranges : List Range
  m_data : List SceneGraphEvent
  collapsedRowCount : Int
  expandedRowCount : Int
  deriving DecidableEq, Repr

/-- The detail types of scene graph events; `Unhandled` stands for every value that has no
case in the switch of `loadData`. -/
inductive SceneGraphFrameType where
  | SceneGraphRendererFrame
  | SceneGraphAdaptationLayerFrame
  | SceneGraphContextFrame
  | SceneGraphRenderLoopFrame
  | SceneGraphTexturePrepare
  | SceneGraphTextureDeletion
  | SceneGraphPolishAndSync
  | SceneGraphWindowsAnimations
  | SceneGraphPolishFrame
  | Unhandled (code : Int)
  deriving DecidableEq, Repr

/-- An entry of the event type table. -/
structure QmlEventTypeData where
  message : Int
  rangeType : Int
  detailType : SceneGraphFrameType
  deriving DecidableEq, Repr

/-- A raw event: its timestamp, its type index and its five numeric values. -/
structure QmlEventData where
  startTime : Int
  typeIndex : Int
  numericData0 : Int
  numericData1 : Int
  numericData2 : Int
  numericData3 : Int
  numericData4 : Int
  deriving DecidableEq, Repr

/-- The accessor `event.numericData(i)`. -/
def QmlEventData.numericData (event : QmlEventData) : Nat → Int
  | 0 => event.numericData0
  | 1 => event.numericData1
  | 2 => event.numericData2
  | 3 => event.numericData3
  | 4 => event.numericData4
  | _ => 0

namespace SceneGraphTimelineModel

/-! ## Accessors of the base class -/

/-- The number of stored intervals, `count()`. -/
def count (m : SceneGraphTimelineModel) : Nat := m.ranges.length

/-- The start of interval `i`, `startTime(i)`. -/
def startTime (m : SceneGraphTimelineModel) (i : Nat) : Int := (m.ranges.getD i default).start

/-- The duration of interval `i`, `duration(i)`. -/
def duration (m : SceneGraphTimelineModel) (i : Nat) : Int :=
  (m.ranges.getD i default).duration

/-- The end of interval `i`, `endTime(i)`. -/
def endTime (m : SceneGraphTimelineModel) (i : Nat) : Int := m.startTime i + m.duration i

/-- The stage of interval `i`, `selectionId(i)`. -/
def selectionId (m : SceneGraphTimelineModel) (i : Nat) : Int :=
  (m.ranges.getD i default).selectionId

/-- The collapsed row of interval `i`, `collapsedRow(i)`. -/
def collapsedRow (m : SceneGraphTimelineModel) (i : Nat) : Int :=
  (m.m_data.getD i default).rowNumberCollapsed

/-! ## insert -/

/-- Modelled from the spec: `QmlProfilerTimelineModel::insert` of the timeline base class is
missing. The store is append-only: the new range goes to the end and its index is returned. -/
def timelineInsert (ranges : List Range) (start duration selectionId : Int) :
    Nat × List Range :=
  (ranges.length, ranges ++ [{ start := start, duration := duration, selectionId := selectionId }])

/-- The method `insert(start, duration, typeIndex, stage, glyphCount)`: the returned value and
the new state. -/
def insert (m : SceneGraphTimelineModel) (start duration typeIndex : Int)
    (stage : SceneGraphStage) (glyphCount : Int) : Int × SceneGraphTimelineModel :=
  if duration ≤ 0 then (0, m)
  else
    let r := timelineInsert m.ranges start duration stage.toInt
    (duration, { m with ranges := r.2
                        m_data := m.m_data.insertIdx r.1 (SceneGraphEvent.mk2 typeIndex glyphCount) })

/-! ## flattenLoads -/

/-- The first loop of the body: `while (eventEndTimes.count() > row && eventEndTimes[row] >
startTime(i)) ++row`. Every iteration increments `row` below `eventEndTimes.count()`, so
`eventEndTimes.count()` iterations are never all used up before the condition fails. -/
def probe (eventEndTimes : List Int) (start : Int) : Nat → Nat → Nat
  | 0, row => row
  | fuel + 1, row =>
    if eventEndTimes.length > row ∧ eventEndTimes.getD row 0 > start then
      probe eventEndTimes start fuel (row + 1)
    else row

/-- The second loop of the body: `while (eventEndTimes.count() <= row) eventEndTimes << 0`. -/
def grow (eventEndTimes : List Int) (row : Nat) : List Int :=
  eventEndTimes ++ List.replicate (row + 1 - eventEndTimes.length) 0

/-- The local state of `flattenLoads` together with the vector it writes. -/
structure FlattenState where
  m_data : List SceneGraphEvent
  eventEndTimes : List Int
  collapsedRowCount : Int
  deriving DecidableEq, Repr

/-- The row at which the probe of an interval starts: the ordinal of its category. -/
def categoryRow (stage : Int) : Nat :=
  if stage < MaximumGUIThreadStage then SceneGraphGUIThread
  else if stage < MaximumRenderThreadStage then SceneGraphRenderThread
  else SceneGraphRenderThreadDetails

/-- One iteration of the loop of `flattenLoads`, for the index `i`. -/
def flattenStep (m : SceneGraphTimelineModel) (st : FlattenState) (i : Nat) : FlattenState :=
  let stage := m.selectionId i
  let row := probe st.eventEndTimes (m.startTime i) st.eventEndTimes.length (categoryRow stage)
  let ends := (grow st.eventEndTimes row).set row (m.endTime i)
  let rowNumberCollapsed : Int := (row : Int) + 1
  { m_data := st.m_data.modify (fun event => { event with rowNumberCollapsed := rowNumberCollapsed }) i
    eventEndTimes := ends
    collapsedRowCount :=
      if rowNumberCollapsed > st.collapsedRowCount then rowNumberCollapsed
      else st.collapsedRowCount }

/-- The state of the loop of `flattenLoads` after its first `n` iterations. -/
def flattenLoop (m : SceneGraphTimelineModel) : Nat → FlattenState
  | 0 => { m_data := m.m_data, eventEndTimes := [], collapsedRowCount := 0 }
  | n + 1 => flattenStep m (flattenLoop m n) n

/-- The method `flattenLoads()`. -/
def flattenLoads (m : SceneGraphTimelineModel) : SceneGraphTimelineModel :=
  let st := flattenLoop m m.count
  { m with m_data := st.m_data
           collapsedRowCount := st.collapsedRowCount + 1
           expandedRowCount := MaximumSceneGraphStage + 1 }

/-! ## loadData -/

/-- The conversion of a `qint64` value to an `int` parameter, as for the `glyphCount` of
`insert`: the value modulo 2^32, in the range of a 32-bit `int`. -/
def narrowToInt (v : Int) : Int := (v + 2147483648) % 4294967296 - 2147483648

/-- The body of the loop of `loadData` for one event. -/
def loadEvent (accepted : QmlEventTypeData → Bool) (types : Int → QmlEventTypeData)
    (m : SceneGraphTimelineModel) (event : QmlEventData) : SceneGraphTimelineModel :=
  let type := types event.typeIndex
  if !accepted type then m
  else
    match type.detailType with
    | .SceneGraphRendererFrame =>
      let startTime := event.startTime - event.numericData 0 - event.numericData 1 -
        event.numericData 2 - event.numericData 3
      let r := m.insert startTime (event.numericData 0) event.typeIndex .RenderPreprocess noGlyphCount
      let startTime := startTime + r.1
      let r := r.2.insert startTime (event.numericData 1) event.typeIndex .RenderUpdate noGlyphCount
      let startTime := startTime + r.1
      let r := r.2.insert startTime (event.numericData 2) event.typeIndex .RenderBind noGlyphCount
      let startTime := startTime + r.1
      (r.2.insert startTime (event.numericData 3) event.typeIndex .RenderRender noGlyphCount).2
    | .SceneGraphAdaptationLayerFrame =>
      let startTime := event.startTime - event.numericData 1 - event.numericData 2
      let r := m.insert startTime (event.numericData 1) event.typeIndex .GlyphRender
        (narrowToInt (event.numericData 0))
      let startTime := startTime + r.1
      (r.2.insert startTime (event.numericData 2) event.typeIndex .GlyphStore
        (narrowToInt (event.numericData 0))).2
    | .SceneGraphContextFrame =>
      (m.insert (event.startTime - event.numericData 0) (event.numericData 0) event.typeIndex
        .Material noGlyphCount).2
    | .SceneGraphRenderLoopFrame =>
      let startTime := event.startTime - event.numericData 0 - event.numericData 1 -
        event.numericData 2
      let r := m.insert startTime (event.numericData 0) event.typeIndex .RenderThreadSync noGlyphCount
      let startTime := startTime + r.1
      let r := r.2.insert startTime (event.numericData 1) event.typeIndex .Render noGlyphCount
      let startTime := startTime + r.1
      (r.2.insert startTime (event.numericData 2) event.typeIndex .Swap noGlyphCount).2
    | .SceneGraphTexturePrepare =>
      let startTime := event.startTime - event.numericData 0 - event.numericData 1 -
        event.numericData 2 - event.numericData 3 - event.numericData 4
      let r := m.insert startTime (event.numericData 0) event.typeIndex .TextureBind noGlyphCount
      let startTime := startTime + r.1
      let r := r.2.insert startTime (event.numericData 1) event.typeIndex .TextureConvert noGlyphCount
      let startTime := startTime + r.1
      let r := r.2.insert startTime (event.numericData 2) event.typeIndex .TextureSwizzle noGlyphCount
      let startTime := startTime + r.1
      let r := r.2.insert startTime (event.numericData 3) event.typeIndex .TextureUpload noGlyphCount
      let startTime := startTime + r.1
      (r.2.insert startTime (event.numericData 4) event.typeIndex .TextureMipmap noGlyphCount).2
    | .SceneGraphTextureDeletion =>
      (m.insert (event.startTime - event.numericData 0) (event.numericData 0) event.typeIndex
        .TextureDeletion noGlyphCount).2
    | .SceneGraphPolishAndSync =>
      let startTime := event.startTime - event.numericData 0 - event.numericData 1 -
        event.numericData 2 - event.numericData 3
      let r := m.insert startTime (event.numericData 0) event.typeIndex .Polish noGlyphCount
      let startTime := startTime + r.1
      let r := r.2.insert startTime (event.numericData 1) event.typeIndex .Wait noGlyphCount
      let startTime := startTime + r.1
      let r := r.2.insert startTime (event.numericData 2) event.typeIndex .GUIThreadSync noGlyphCount
      let startTime := startTime + r.1
      (r.2.insert startTime (event.numericData 3) event.typeIndex .Animations noGlyphCount).2
    | .SceneGraphWindowsAnimations =>
      (m.insert (event.startTime - event.numericData 0) (event.numericData 0) event.typeIndex
        .Animations noGlyphCount).2
    | .SceneGraphPolishFrame =>
      (m.insert (event.startTime - event.numericData 0) (event.numericData 0) event.typeIndex
        .Polish noGlyphCount).2
    | .Unhandled _ => m

/-- The method `loadData()`: `events` are the events of the data model, `types` its type
table and `accepted` the acceptance test of the base class. -/
def loadData (accepted : QmlEventTypeData → Bool) (types : Int → QmlEventTypeData)
    (events : List QmlEventData) (m : SceneGraphTimelineModel) : SceneGraphTimelineModel :=
  if events.isEmpty then m
  else flattenLoads (events.foldl (loadEvent accepted types) m)

/-- Modelled from the spec: the `clear()` of the timeline base class is missing. It empties all
intervals and resets the derived row counts to zero. -/
def timelineClear (m : SceneGraphTimelineModel) : SceneGraphTimelineModel :=
  { m with ranges := [], collapsedRowCount := 0, expandedRowCount := 0 }

/-- The method `clear()`: `m_data.clear()`, then the `clear()` of the base class. -/
def clear (m : SceneGraphTimelineModel) : SceneGraphTimelineModel :=
  timelineClear { m with m_data := [] }

/-! ## Notions used to state the properties -/

/-- The two parallel vectors of a store have the same length. -/
def WellFormed (m : SceneGraphTimelineModel) : Prop := m.m_data.length = m.ranges.length

instance (m : SceneGraphTimelineModel) : Decidable m.WellFormed := by
  unfold WellFormed; infer_instance

/-- Every stored interval has a positive duration. -/
def PositiveDurations (m : SceneGraphTimelineModel) : Prop := ∀ r ∈ m.ranges, 0 < r.duration

instance (m : SceneGraphTimelineModel) : Decidable m.PositiveDurations := by
  unfold PositiveDurations; infer_instance

/-- The stored intervals are in non-decreasing order of their start times. -/
def StartsSorted (m : SceneGraphTimelineModel) : Prop :=
  m.ranges.Pairwise (fun a b => a.start ≤ b.start)

instance (m : SceneGraphTimelineModel) : Decidable m.StartsSorted := by
  unfold StartsSorted; infer_instance

/-- The row the loop of `flattenLoads` gives to interval `i`, before the increment for the
category header: the result of the probe in iteration `i`. -/
def assignedRow (m : SceneGraphTimelineModel) (i : Nat) : Nat :=
  probe (flattenLoop m i).eventEndTimes (m.startTime i) (flattenLoop m i).eventEndTimes.length
    (categoryRow (m.selectionId i))

/-! ## Example stores -/

/-- Two overlapping GUI thread intervals followed by a render thread interval. -/
def isolationStore : SceneGraphTimelineModel :=
  { ranges := [⟨0, 10, 0⟩, ⟨5, 10, 0⟩, ⟨20, 10, 4⟩]
    m_data := [⟨0, -1, -1⟩, ⟨0, -1, -1⟩, ⟨0, -1, -1⟩]
    collapsedRowCount := 0
    expandedRowCount := 0 }

/-- A store with one GUI thread interval. -/
def singleStore : SceneGraphTimelineModel :=
  { ranges := [⟨0, 10, 0⟩]
    m_data := [⟨0, -1, -1⟩]
    collapsedRowCount := 0
    expandedRowCount := 0 }

/-! ## The decomposition rules, as data -/

/-- The auxiliary slots that the rule of a detail type uses, each with the stage it feeds,
in the order of the rule. -/
def ruleStages : SceneGraphFrameType → List (Nat × SceneGraphStage)
  | .SceneGraphRendererFrame =>
    [(0, .RenderPreprocess), (1, .RenderUpdate), (2, .RenderBind), (3, .RenderRender)]
  | .SceneGraphAdaptationLayerFrame => [(1, .GlyphRender), (2, .GlyphStore)]
  | .SceneGraphContextFrame => [(0, .Material)]
  | .SceneGraphRenderLoopFrame => [(0, .RenderThreadSync), (1, .Render), (2, .Swap)]
  | .SceneGraphTexturePrepare =>
    [(0, .TextureBind), (1, .TextureConvert), (2, .TextureSwizzle), (3, .TextureUpload),
      (4, .TextureMipmap)]
  | .SceneGraphTextureDeletion => [(0, .TextureDeletion)]
  | .SceneGraphPolishAndSync => [(0, .Polish), (1, .Wait), (2, .GUIThreadSync), (3, .Animations)]
  | .SceneGraphWindowsAnimations => [(0, .Animations)]
  | .SceneGraphPolishFrame => [(0, .Polish)]
  | .Unhandled _ => []

/-- The auxiliary values that the rule of a detail type uses, in the order of the rule. -/
def usedValues (t : SceneGraphFrameType) (event : QmlEventData) : List Int :=
  (ruleStages t).map (fun p => event.numericData p.1)

/-- The sum of the auxiliary values that the rule of a detail type uses. -/
def usedSum (t : SceneGraphFrameType) (event : QmlEventData) : Int := (usedValues t event).sum

/-- The ranges a chain of `insert` calls stores when it starts at `cursor`: each call stores
its range unless the duration is `<= 0`, and the cursor advances by what the call returns. -/
def walk (cursor : Int) : List (Int × SceneGraphStage) → List Range
  | [] => []
  | (d, stage) :: rest =>
    (if d ≤ 0 then [] else [{ start := cursor, duration := d, selectionId := stage.toInt }]) ++
      walk (cursor + (if d ≤ 0 then 0 else d)) rest

/-- The ranges the rule of a detail type yields for an event. -/
def reconstruct (t : SceneGraphFrameType) (event : QmlEventData) : List Range :=
  walk (event.startTime - usedSum t event)
    ((ruleStages t).map (fun p => (event.numericData p.1, p.2)))

/-! ## Sequences of operations -/

/-- The operations that change a model. -/
inductive ModelOp where
  | loadData (events : List QmlEventData)
  | clear

/-- One operation on a model. -/
def applyOp (accepted : QmlEventTypeData → Bool) (types : Int → QmlEventTypeData)
    (m : SceneGraphTimelineModel) : ModelOp → SceneGraphTimelineModel
  | .loadData events => loadData accepted types events m
  | .clear => clear m

/-- A sequence of operations on a model, first to last. -/
def applyOps (accepted : QmlEventTypeData → Bool) (types : Int → QmlEventTypeData)
    (m : SceneGraphTimelineModel) (ops : List ModelOp) : SceneGraphTimelineModel :=
  ops.foldl (applyOp accepted types) m

/-- An acceptance test that lets every event type through. -/
def acceptAll (_type : QmlEventTypeData) : Bool := true

/-- A type table in which every type index is a polish frame. -/
def polishTypes (_typeIndex : Int) : QmlEventTypeData :=
  { message := 0, rangeType := 0, detailType := .SceneGraphPolishFrame }

/-- A type table in which every type index is a render loop frame. -/
def renderLoopTypes (_typeIndex : Int) : QmlEventTypeData :=
  { message := 0, rangeType := 0, detailType := .SceneGraphRenderLoopFrame }

/-- A store without intervals. -/
def emptyStore : SceneGraphTimelineModel :=
  { ranges := [], m_data := [], collapsedRowCount := 0, expandedRowCount := 0 }

/-- Two polish frames in timestamp order, the second one longer than the gap between them. -/
def nestedPolishEvents : List QmlEventData :=
  [⟨100, 0, 10, 0, 0, 0, 0⟩, ⟨110, 0, 50, 0, 0, 0, 0⟩]

/-- Two polish frames one after the other. -/
def separatePolishEvents : List QmlEventData :=
  [⟨100, 0, 10, 0, 0, 0, 0⟩, ⟨110, 0, 5, 0, 0, 0, 0⟩]

/-- A render loop frame with the timestamp 100 and the values 10, 0 and 20. -/
def renderLoopEvent : QmlEventData := ⟨100, 0, 10, 0, 20, 0, 0⟩

/-! ## Rows and simultaneous intervals of a category -/

/-- The indices of the stored intervals whose stage belongs to the category with ordinal
`c`. -/
def categoryIndices (m : SceneGraphTimelineModel) (c : Nat) : List Nat :=
  (List.range m.count).filter (fun i => categoryRow (m.selectionId i) = c)

/-- The distinct collapsed rows of the intervals of the category with ordinal `c`. -/
def rowsUsed (m : SceneGraphTimelineModel) (c : Nat) : List Int :=
  ((categoryIndices m c).map m.collapsedRow).dedup

/-- The number of intervals of the category with ordinal `c` that are active at the instant
`t`, an interval being active from its start up to, not including, its end. -/
def activeAt (m : SceneGraphTimelineModel) (c : Nat) (t : Int) : Nat :=
  ((categoryIndices m c).filter (fun i => m.startTime i ≤ t ∧ t < m.endTime i)).length

/-- Two GUI thread intervals, a render thread interval that takes over the row of the second
one, and a third GUI thread interval. -/
def minimalityStore : SceneGraphTimelineModel :=
  { ranges := [⟨0, 10, 0⟩, ⟨1, 2, 0⟩, ⟨3, 97, 4⟩, ⟨4, 16, 0⟩]
    m_data := [⟨0, -1, -1⟩, ⟨0, -1, -1⟩, ⟨0, -1, -1⟩, ⟨0, -1, -1⟩]
    collapsedRowCount := 0
    expandedRowCount := 0 }

/-! ## threadLabel -/

/-- The table `ThreadLabels`. -/
def ThreadLabels : List String := ["GUI Thread", "Render Thread", "Render Thread Details"]

/-- The entry `ThreadLabels[i]`. -/
def threadLabelAt (i : Nat) : String := ThreadLabels.getD i default

/-- The method `threadLabel(stage)`. -/
def threadLabel (stage : SceneGraphStage) : String :=
  if stage.toInt < MaximumGUIThreadStage then threadLabelAt SceneGraphGUIThread
  else if stage.toInt < MaximumRenderThreadStage then threadLabelAt SceneGraphRenderThread
  else threadLabelAt SceneGraphRenderThreadDetails

/-! ## More example stores and events -/

/-- A render thread details interval followed by a GUI thread interval, both before the
instant 0. -/
def negativeStore : SceneGraphTimelineModel :=
  { ranges := [⟨-10, 5, 7⟩, ⟨-8, 5, 0⟩]
    m_data := [⟨0, -1, -1⟩, ⟨0, -1, -1⟩]
    collapsedRowCount := 0
    expandedRowCount := 0 }

/-- Modelled from the spec: the constructor of the timeline base class is missing. A new model
holds no intervals and no per-interval data, and its row counts are zero, as after `clear()`. -/
def freshModel : SceneGraphTimelineModel :=
  { ranges := [], m_data := [], collapsedRowCount := 0, expandedRowCount := 0 }

/-- The model with other row counts. -/
def setCounts (m : SceneGraphTimelineModel) (c x : Int) : SceneGraphTimelineModel :=
  { m with collapsedRowCount := c, expandedRowCount := x }

/-- A type table in which every type index is an adaptation layer frame. -/
def adaptationTypes (_typeIndex : Int) : QmlEventTypeData :=
  { message := 0, rangeType := 0, detailType := .SceneGraphAdaptationLayerFrame }

/-- A type table in which every type index has a detail type without a case in the switch. -/
def unhandledTypes (_typeIndex : Int) : QmlEventTypeData :=
  { message := 0, rangeType := 0, detailType := .Unhandled 7 }

/-- An adaptation layer frame with 7 glyphs and the values 5 and 0 in the slots 1 and 2. -/
def glyphEvent : QmlEventData := ⟨100, 0, 7, 5, 0, 0, 0⟩

/-- The event `glyphEvent` with another value in slot 1 only. -/
def glyphEventOdd : QmlEventData := ⟨100, 0, 7, 9, 0, 0, 0⟩

/-- An adaptation layer frame with positive values in the slots 1 and 2 and, in slot 0, the
value 2^32 + 7, which is beyond the range of `int`. -/
def glyphEventPair : QmlEventData := ⟨100, 0, 4294967303, 5, 3, 0, 0⟩

/-- Four GUI thread intervals of which the first three overlap and the fourth starts after
the first has ended. -/
def packedStore : SceneGraphTimelineModel :=
  { ranges := [⟨0, 10, 0⟩, ⟨5, 10, 1⟩, ⟨7, 13, 2⟩, ⟨12, 18, 3⟩]
    m_data := [⟨0, -1, -1⟩, ⟨0, -1, -1⟩, ⟨0, -1, -1⟩, ⟨0, -1, -1⟩]
    collapsedRowCount := 0
    expandedRowCount := 0 }

/-! ## The category of an event -/

/-- The category ordinal named for each detail type: GUI thread for polish-and-sync, animation
and polish frames, render thread for render loop frames, render thread details for renderer,
adaptation layer, context and texture frames (and, with nothing to say, for the rest). -/
def eventCategory : SceneGraphFrameType → Nat
  | .SceneGraphPolishAndSync => SceneGraphGUIThread
  | .SceneGraphWindowsAnimations => SceneGraphGUIThread
  | .SceneGraphPolishFrame => SceneGraphGUIThread
  | .SceneGraphRenderLoopFrame => SceneGraphRenderThread
  | _ => SceneGraphRenderThreadDetails

/-- A texture preparation frame with five positive values. -/
def textureEvent : QmlEventData := ⟨100, 0, 1, 2, 3, 4, 5⟩

/-- A type table in which every type index is a texture preparation frame. -/
def textureTypes (_typeIndex : Int) : QmlEventTypeData :=
  { message := 0, rangeType := 0, detailType := .SceneGraphTexturePrepare }

/-! ## The order in which a pass stores intervals -/

/-- The ranges that the rules yield for a list of events, event after event. -/
def reconstructAll (types : Int → QmlEventTypeData) : List QmlEventData → List Range
  | [] => []
  | event :: rest =>
    reconstruct (types event.typeIndex).detailType event ++ reconstructAll types rest

/-- The instant at which the span of an event starts: its timestamp minus the sum of the
auxiliary values that its rule uses. -/
def spanStart (types : Int → QmlEventTypeData) (event : QmlEventData) : Int :=
  event.startTime - usedSum (types event.typeIndex).detailType event

/-- The last positive value of a list, and 0 for a list without a positive value. -/
def lastPositive : List Int → Int
  | [] => 0
  | v :: rest => if 0 < lastPositive rest then lastPositive rest else if 0 < v then v else 0

/-- The start of the last interval of an event with non-negative values: its timestamp minus
the last positive value that its rule uses. -/
def lastStart (types : Int → QmlEventTypeData) (event : QmlEventData) : Int :=
  event.startTime - lastPositive (usedValues (types event.typeIndex).detailType event)

/-- Whether the spans follow the stored intervals: every event with a positive sum of used
values, which are the events that store an interval, starts its span no earlier than the last
interval stored before it starts. `previous` is the start of that interval, if there is one;
after such an event it is the start of the last interval of this event. -/
def startsInOrder (types : Int → QmlEventTypeData) : Option Int → List QmlEventData → Bool
  | _, [] => true
  | previous, event :: rest =>
    if 0 < usedSum (types event.typeIndex).detailType event then
      (match previous with
        | none => true
        | some p => decide (p ≤ spanStart types event)) &&
      startsInOrder types (some (lastStart types event)) rest
    else startsInOrder types previous rest

/-- Two polish frames whose spans overlap, the second one starting after the first. -/
def overlappingPolishEvents : List QmlEventData :=
  [⟨100, 0, 10, 0, 0, 0, 0⟩, ⟨105, 0, 10, 0, 0, 0, 0⟩]

/-- Three render loop frames with overlapping spans: between the first and the third, a frame
that stores nothing; the third starts where the last interval of the first starts. -/
def overlappingRenderLoopEvents : List QmlEventData :=
  [⟨100, 0, 10, 20, 30, 0, 0⟩, ⟨101, 0, 0, 0, 0, 0, 0⟩, ⟨120, 0, 50, 0, 0, 0, 0⟩]

end SceneGraphTimelineModel

end QmlProfilerExtension

/-! # Theorems -/

namespace QmlProfilerExtension

namespace SceneGraphTimelineModel

/-! ## insert -/

theorem insert_fst (m : SceneGraphTimelineModel) (start duration typeIndex : Int)
    (stage : SceneGraphStage) (glyphCount : Int) :
    (m.insert start duration typeIndex stage glyphCount).1 = if duration ≤ 0 then 0 else duration := by
  unfold insert; split <;> rfl

theorem insert_ranges (m : SceneGraphTimelineModel) (start duration typeIndex : Int)
    (stage : SceneGraphStage) (glyphCount : Int) :
    (m.insert start duration typeIndex stage glyphCount).2.ranges =
      m.ranges ++ (if duration ≤ 0 then []
        else [{ start := start, duration := duration, selectionId := stage.toInt }]) := by
  unfold insert timelineInsert; split <;> simp

theorem insert_m_data (m : SceneGraphTimelineModel) (hwf : m.WellFormed)
    (start duration typeIndex : Int) (stage : SceneGraphStage) (glyphCount : Int) :
    (m.insert start duration typeIndex stage glyphCount).2.m_data =
      m.m_data ++ (if duration ≤ 0 then []
        else [{ typeId := typeIndex, rowNumberCollapsed := -1, glyphCount := glyphCount }]) := by
  unfold insert timelineInsert SceneGraphEvent.mk2
  split
  · simp
  · have hlen : m.ranges.length = m.m_data.length := hwf.symm
    simp [hlen, List.insertIdx_length_self]

/-- C7: `insert` with a duration `<= 0` returns 0 and leaves the store as it is; with a
duration `> 0` it returns the duration and adds exactly one interval, with the given start,
duration and stage, and with the given typeIndex and glyphCount as its data. -/
theorem insert_rejects_non_positive (m : SceneGraphTimelineModel) (start duration typeIndex : Int)
    (stage : SceneGraphStage) (glyphCount : Int) :
    (duration ≤ 0 → m.insert start duration typeIndex stage glyphCount = (0, m)) ∧
    (0 < duration → m.WellFormed →
      m.insert start duration typeIndex stage glyphCount =
        (duration,
          { m with
            ranges := m.ranges ++
              [{ start := start, duration := duration, selectionId := stage.toInt }]
            m_data := m.m_data ++
              [{ typeId := typeIndex, rowNumberCollapsed := -1, glyphCount := glyphCount }] })) := by
  constructor
  · intro h
    simp [insert, h]
  · intro h hwf
    have h1 := insert_fst m start duration typeIndex stage glyphCount
    have h2 := insert_ranges m start duration typeIndex stage glyphCount
    have h3 := insert_m_data m hwf start duration typeIndex stage glyphCount
    have hd : ¬ duration ≤ 0 := not_le.mpr h
    simp only [hd, if_false] at h1 h2 h3
    have h4 : (m.insert start duration typeIndex stage glyphCount).2.collapsedRowCount =
        m.collapsedRowCount := by simp [insert, hd]
    have h5 : (m.insert start duration typeIndex stage glyphCount).2.expandedRowCount =
        m.expandedRowCount := by simp [insert, hd]
    rcases hr : m.insert start duration typeIndex stage glyphCount with ⟨d, m2⟩
    rw [hr] at h1 h2 h3 h4 h5
    cases m2
    simp_all

theorem insert_rejects_non_positive_witness :
    (SceneGraphTimelineModel.mk [] [] 0 0).insert 5 0 1 .Polish (-1) =
        (0, SceneGraphTimelineModel.mk [] [] 0 0) ∧
    (SceneGraphTimelineModel.mk [] [] 0 0).insert 5 3 1 .Polish (-1) =
        (3, SceneGraphTimelineModel.mk [⟨5, 3, 0⟩] [⟨1, -1, -1⟩] 0 0) :=
  ⟨(insert_rejects_non_positive (SceneGraphTimelineModel.mk [] [] 0 0) 5 0 1 .Polish (-1)).1
      (by decide),
   (insert_rejects_non_positive (SceneGraphTimelineModel.mk [] [] 0 0) 5 3 1 .Polish (-1)).2
      (by decide) (by decide)⟩

/-! ## The probe -/

theorem probe_spec (E : List Int) (s : Int) : ∀ (fuel row : Nat), E.length ≤ row + fuel →
    row ≤ probe E s fuel row ∧
    (probe E s fuel row < E.length → E.getD (probe E s fuel row) 0 ≤ s) ∧
    (∀ k, row ≤ k → k < probe E s fuel row → k < E.length ∧ s < E.getD k 0) ∧
    (probe E s fuel row ≤ max row E.length) := by
  intro fuel
  induction fuel with
  | zero =>
    intro row h
    refine ⟨le_refl _, ?_, ?_, ?_⟩
    · intro h2
      simp only [probe] at h2
      omega
    · intro k h1 h2
      simp only [probe] at h2
      omega
    · simp only [probe]
      exact le_max_left _ _
  | succ fuel ih =>
    intro row h
    by_cases hc : E.length > row ∧ E.getD row 0 > s
    · have hp : probe E s (fuel + 1) row = probe E s fuel (row + 1) := by
        simp only [probe, if_pos hc]
      rw [hp]
      obtain ⟨i1, i2, i3, i4⟩ := ih (row + 1) (by omega)
      refine ⟨by omega, i2, ?_, ?_⟩
      · intro k h1 h2
        by_cases hk : k = row
        · subst hk
          exact ⟨hc.1, hc.2⟩
        · exact i3 k (by omega) h2
      · have : max (row + 1) E.length = max row E.length := by
          have := hc.1
          omega
        omega
    · have hp : probe E s (fuel + 1) row = row := by
        simp only [probe, if_neg hc]
      rw [hp]
      refine ⟨le_refl _, ?_, ?_, le_max_left _ _⟩
      · intro h2
        by_contra h3
        exact hc ⟨h2, not_le.mp h3⟩
      · intro k h1 h2
        omega

/-! ## The end times kept by the loop of flattenLoads -/

theorem grow_length (E : List Int) (row : Nat) : (grow E row).length = max E.length (row + 1) := by
  simp only [grow, List.length_append, List.length_replicate]
  omega

theorem grow_getD (E : List Int) (row k : Nat) : (grow E row).getD k 0 = E.getD k 0 := by
  simp only [grow, List.getD_eq_getElem?_getD]
  by_cases h : k < E.length
  · rw [List.getElem?_append_left h]
  · rw [List.getElem?_append_right (not_lt.mp h)]
    rw [List.getElem?_eq_none (not_lt.mp h)]
    by_cases h2 : k - E.length < row + 1 - E.length
    · rw [List.getElem?_replicate]
      simp [h2]
    · rw [List.getElem?_eq_none (by simpa using not_lt.mp h2)]

theorem eventEndTimes_succ (m : SceneGraphTimelineModel) (n : Nat) :
    (flattenLoop m (n + 1)).eventEndTimes =
      (grow (flattenLoop m n).eventEndTimes (assignedRow m n)).set (assignedRow m n)
        (m.endTime n) := rfl

theorem eventEndTimes_length_succ (m : SceneGraphTimelineModel) (n : Nat) :
    (flattenLoop m (n + 1)).eventEndTimes.length =
      max (flattenLoop m n).eventEndTimes.length (assignedRow m n + 1) := by
  rw [eventEndTimes_succ, List.length_set, grow_length]

theorem eventEndTimes_getD_succ (m : SceneGraphTimelineModel) (n k : Nat) :
    (flattenLoop m (n + 1)).eventEndTimes.getD k 0 =
      if k = assignedRow m n then m.endTime n else (flattenLoop m n).eventEndTimes.getD k 0 := by
  rw [eventEndTimes_succ]
  have hlen := grow_length (flattenLoop m n).eventEndTimes (assignedRow m n)
  by_cases h : k = assignedRow m n
  · subst h
    rw [if_pos rfl, List.getD_eq_getElem?_getD, List.getElem?_set_self (by omega)]
    rfl
  · rw [if_neg h, List.getD_eq_getElem?_getD, List.getElem?_set_ne (Ne.symm h),
      ← List.getD_eq_getElem?_getD, grow_getD]

/-! ## What the loop of flattenLoads does to the model -/

theorem assignedRow_spec (m : SceneGraphTimelineModel) (n : Nat) :
    categoryRow (m.selectionId n) ≤ assignedRow m n ∧
    (assignedRow m n < (flattenLoop m n).eventEndTimes.length →
      (flattenLoop m n).eventEndTimes.getD (assignedRow m n) 0 ≤ m.startTime n) ∧
    (∀ k, categoryRow (m.selectionId n) ≤ k → k < assignedRow m n →
      k < (flattenLoop m n).eventEndTimes.length ∧
        m.startTime n < (flattenLoop m n).eventEndTimes.getD k 0) ∧
    (assignedRow m n ≤
      max (categoryRow (m.selectionId n)) (flattenLoop m n).eventEndTimes.length) :=
  probe_spec (flattenLoop m n).eventEndTimes (m.startTime n)
    (flattenLoop m n).eventEndTimes.length (categoryRow (m.selectionId n)) (by omega)

theorem flattenLoop_m_data_succ (m : SceneGraphTimelineModel) (n : Nat) :
    (flattenLoop m (n + 1)).m_data =
      (flattenLoop m n).m_data.modify
        (fun event => { event with rowNumberCollapsed := (assignedRow m n : Int) + 1 }) n := rfl

theorem flattenLoop_m_data_length (m : SceneGraphTimelineModel) (n : Nat) :
    (flattenLoop m n).m_data.length = m.m_data.length := by
  induction n with
  | zero => rfl
  | succ n ih => rw [flattenLoop_m_data_succ, List.length_modify, ih]

theorem flattenLoop_m_data_get (m : SceneGraphTimelineModel) (n i : Nat) :
    (flattenLoop m n).m_data[i]? =
      if i < n then
        (m.m_data[i]?).map
          (fun event => { event with rowNumberCollapsed := (assignedRow m i : Int) + 1 })
      else m.m_data[i]? := by
  induction n with
  | zero => simp [flattenLoop]
  | succ n ih =>
    rw [flattenLoop_m_data_succ, List.getElem?_modify, ih]
    by_cases h : n = i
    · subst h
      simp
    · by_cases h2 : i < n
      · have h3 : i < n + 1 := by omega
        simp [h, h2, h3]
      · have h3 : ¬ i < n + 1 := by omega
        simp [h, h2, h3]

theorem flattenLoads_ranges (m : SceneGraphTimelineModel) : (flattenLoads m).ranges = m.ranges :=
  rfl

theorem flattenLoads_count (m : SceneGraphTimelineModel) : (flattenLoads m).count = m.count :=
  rfl

theorem flattenLoads_startTime (m : SceneGraphTimelineModel) (i : Nat) :
    (flattenLoads m).startTime i = m.startTime i := rfl

theorem flattenLoads_endTime (m : SceneGraphTimelineModel) (i : Nat) :
    (flattenLoads m).endTime i = m.endTime i := rfl

theorem flattenLoads_selectionId (m : SceneGraphTimelineModel) (i : Nat) :
    (flattenLoads m).selectionId i = m.selectionId i := rfl

theorem flattenLoads_wellFormed (m : SceneGraphTimelineModel) (hwf : m.WellFormed) :
    (flattenLoads m).WellFormed := by
  unfold WellFormed at *
  show (flattenLoop m m.count).m_data.length = m.ranges.length
  rw [flattenLoop_m_data_length, hwf]

/-- On a well-formed store the collapsed row of every interval is the row found for it by
the probe, plus one. -/
theorem flattenLoads_collapsedRow (m : SceneGraphTimelineModel) (hwf : m.WellFormed) (i : Nat)
    (hi : i < m.count) : (flattenLoads m).collapsedRow i = (assignedRow m i : Int) + 1 := by
  have hlen : i < m.m_data.length := by
    unfold WellFormed at hwf
    unfold count at hi
    omega
  show ((flattenLoop m m.count).m_data.getD i default).rowNumberCollapsed = _
  rw [List.getD_eq_getElem?_getD, flattenLoop_m_data_get, if_pos hi,
    List.getElem?_eq_getElem hlen]
  rfl

/-! ## Invariants of the end times -/

theorem duration_pos (m : SceneGraphTimelineModel) (hpos : m.PositiveDurations) (i : Nat)
    (hi : i < m.count) : m.startTime i < m.endTime i := by
  have h : 0 < m.duration i := by
    unfold duration
    rw [List.getD_eq_getElem _ _ hi]
    exact hpos _ (List.getElem_mem _)
  unfold endTime
  omega

theorem startTime_mono (m : SceneGraphTimelineModel) (hs : m.StartsSorted) (i j : Nat)
    (hij : i ≤ j) (hj : j < m.count) : m.startTime i ≤ m.startTime j := by
  rcases Nat.eq_or_lt_of_le hij with h | h
  · subst h
    exact le_refl _
  · have hi : i < m.count := by omega
    unfold startTime
    rw [List.getD_eq_getElem _ _ hi, List.getD_eq_getElem _ _ hj]
    exact List.pairwise_iff_getElem.mp hs i j hi hj h

/-- Every interval processed so far has a row inside `eventEndTimes`, and the end time kept
for that row is not before the end of the interval. -/
theorem row_end_bound (m : SceneGraphTimelineModel) (hpos : m.PositiveDurations) :
    ∀ n, n ≤ m.count → ∀ i, i < n →
      assignedRow m i < (flattenLoop m n).eventEndTimes.length ∧
      m.endTime i ≤ (flattenLoop m n).eventEndTimes.getD (assignedRow m i) 0 := by
  intro n
  induction n with
  | zero => intro _ i hi; omega
  | succ n ih =>
    intro hn i hi
    rw [eventEndTimes_length_succ, eventEndTimes_getD_succ]
    by_cases h : i = n
    · subst h
      rw [if_pos rfl]
      exact ⟨by omega, le_refl _⟩
    · obtain ⟨h1, h2⟩ := ih (by omega) i (by omega)
      refine ⟨by omega, ?_⟩
      by_cases hr : assignedRow m i = assignedRow m n
      · rw [if_pos hr]
        have hs := (assignedRow_spec m n).2.1 (by rw [← hr]; exact h1)
        rw [← hr] at hs
        have hd := duration_pos m hpos n (by omega)
        omega
      · rw [if_neg hr]
        exact h2

/-- Every row of `eventEndTimes` either holds the end time of the interval that was last
put into it, or is a zero-filled row below the category row of an interval that made the
vector grow. -/
theorem row_content (m : SceneGraphTimelineModel) :
    ∀ n r, r < (flattenLoop m n).eventEndTimes.length →
      (∃ j, j < n ∧ assignedRow m j = r ∧
        (flattenLoop m n).eventEndTimes.getD r 0 = m.endTime j) ∨
      ((flattenLoop m n).eventEndTimes.getD r 0 = 0 ∧
        ∃ j, j < n ∧ r < categoryRow (m.selectionId j)) := by
  intro n
  induction n with
  | zero =>
    intro r hr
    simp [flattenLoop] at hr
  | succ n ih =>
    intro r hr
    rw [eventEndTimes_length_succ] at hr
    rw [eventEndTimes_getD_succ]
    by_cases h : r = assignedRow m n
    · rw [if_pos h]
      exact Or.inl ⟨n, by omega, h.symm, rfl⟩
    · rw [if_neg h]
      by_cases h2 : r < (flattenLoop m n).eventEndTimes.length
      · rcases ih r h2 with ⟨j, hj, h3, h4⟩ | ⟨h3, j, hj, h4⟩
        · exact Or.inl ⟨j, by omega, h3, h4⟩
        · exact Or.inr ⟨h3, j, by omega, h4⟩
      · right
        refine ⟨List.getD_eq_default _ _ (not_lt.mp h2), n, by omega, ?_⟩
        by_contra h3
        have := ((assignedRow_spec m n).2.2.1 r (not_lt.mp h3) (by omega)).1
        omega

/-! ## Lanes -/

/-- Two intervals that the probe puts into the same row do not overlap: the earlier
processed one ends before the later one starts. -/
theorem same_row_disjoint (m : SceneGraphTimelineModel) (hpos : m.PositiveDurations)
    (i j : Nat) (hij : i < j) (hj : j < m.count) (hrow : assignedRow m i = assignedRow m j) :
    m.endTime i ≤ m.startTime j := by
  obtain ⟨h1, h2⟩ := row_end_bound m hpos j (by omega) i hij
  rw [hrow] at h1 h2
  have h3 := (assignedRow_spec m j).2.1 h1
  omega

/-- Two distinct intervals with the same collapsed row after flattenLoads do not overlap. -/
theorem same_collapsedRow_disjoint (m : SceneGraphTimelineModel) (hwf : m.WellFormed)
    (hpos : m.PositiveDurations) (i j : Nat) (hi : i < m.count)
    (hj : j < m.count) (hij : i ≠ j)
    (hrow : (flattenLoads m).collapsedRow i = (flattenLoads m).collapsedRow j) :
    m.endTime i ≤ m.startTime j ∨ m.endTime j ≤ m.startTime i := by
  rw [flattenLoads_collapsedRow m hwf i hi, flattenLoads_collapsedRow m hwf j hj] at hrow
  have hr : assignedRow m i = assignedRow m j := by omega
  rcases Nat.lt_or_gt_of_ne hij with h | h
  · exact Or.inl (same_row_disjoint m hpos i j h hj hr)
  · exact Or.inr (same_row_disjoint m hpos j i h hi hr.symm)

/-- C1: lane non-overlap. In a store whose intervals have positive durations, two distinct
intervals with the same collapsedRow after flattenLoads have disjoint time spans: one ends no
later than the other starts. This holds for every order of the start times, so in particular
for the stores whose intervals are in non-decreasing start order. -/
theorem lane_non_overlap (m : SceneGraphTimelineModel) (hwf : m.WellFormed)
    (hpos : m.PositiveDurations) (i j : Nat) (hi : i < m.count)
    (hj : j < m.count) (hij : i ≠ j)
    (hrow : (flattenLoads m).collapsedRow i = (flattenLoads m).collapsedRow j) :
    (flattenLoads m).endTime i ≤ (flattenLoads m).startTime j ∨
      (flattenLoads m).endTime j ≤ (flattenLoads m).startTime i := by
  simp only [flattenLoads_endTime, flattenLoads_startTime]
  exact same_collapsedRow_disjoint m hwf hpos i j hi hj hij hrow

theorem lane_non_overlap_witness :
    (flattenLoads isolationStore).endTime 1 ≤ (flattenLoads isolationStore).startTime 2 ∨
      (flattenLoads isolationStore).endTime 2 ≤ (flattenLoads isolationStore).startTime 1 :=
  lane_non_overlap isolationStore (by decide) (by decide) 1 2 (by decide)
    (by decide) (by decide) (by decide)

/-- C2, as stated, fails: in `isolationStore` the second GUI thread interval and the render
thread interval both get collapsedRow 2. -/
theorem category_isolation_counterexample :
    isolationStore.WellFormed ∧ isolationStore.PositiveDurations ∧ isolationStore.StartsSorted ∧
    categoryRow (isolationStore.selectionId 1) ≠ categoryRow (isolationStore.selectionId 2) ∧
    (flattenLoads isolationStore).collapsedRow 1 = (flattenLoads isolationStore).collapsedRow 2 := by
  decide

/-- C2, amended: two intervals have the same collapsedRow after flattenLoads only in a row at
or above the first row of the categories of both, that is, in a row numbered at least the
larger of the two category ordinals plus one. Intervals of different categories are therefore
kept apart in the rows below the first row of the higher category, and only there. -/
theorem category_isolation_below_floor (m : SceneGraphTimelineModel) (hwf : m.WellFormed)
    (i j : Nat) (hi : i < m.count) (hj : j < m.count)
    (hrow : (flattenLoads m).collapsedRow i = (flattenLoads m).collapsedRow j) :
    ((max (categoryRow (m.selectionId i)) (categoryRow (m.selectionId j)) : Nat) : Int) + 1 ≤
      (flattenLoads m).collapsedRow i := by
  have hi2 := flattenLoads_collapsedRow m hwf i hi
  have hj2 := flattenLoads_collapsedRow m hwf j hj
  have h1 := (assignedRow_spec m i).1
  have h2 := (assignedRow_spec m j).1
  rw [hj2] at hrow
  rw [hrow]
  rw [hrow] at hi2
  have h3 : assignedRow m i = assignedRow m j := by omega
  have h4 : max (categoryRow (m.selectionId i)) (categoryRow (m.selectionId j))
      ≤ assignedRow m j := by
    rw [h3] at h1
    exact max_le h1 h2
  omega

theorem category_isolation_below_floor_witness :
    ((max (categoryRow (isolationStore.selectionId 1))
      (categoryRow (isolationStore.selectionId 2)) : Nat) : Int) + 1 ≤
      (flattenLoads isolationStore).collapsedRow 1 :=
  category_isolation_below_floor isolationStore (by decide) 1 2 (by decide) (by decide)
    (by decide)

/-- C5: three GUI thread intervals with the spans [0,10), [5,15) and [20,30), in that order
and as the only content of a store, get the collapsed rows 1, 2 and 1. -/
theorem lane_scenario (s1 s2 s3 : Int) (e1 e2 e3 : SceneGraphEvent) (c x : Int)
    (h1 : s1 < MaximumGUIThreadStage) (h2 : s2 < MaximumGUIThreadStage)
    (h3 : s3 < MaximumGUIThreadStage) :
    ((flattenLoads
      { ranges := [⟨0, 10, s1⟩, ⟨5, 10, s2⟩, ⟨20, 10, s3⟩]
        m_data := [e1, e2, e3]
        collapsedRowCount := c
        expandedRowCount := x }).m_data.map SceneGraphEvent.rowNumberCollapsed) = [1, 2, 1] := by
  simp [flattenLoads, flattenLoop, flattenStep, count, selectionId, startTime, endTime, duration,
    categoryRow, h1, h2, h3, probe, grow, SceneGraphGUIThread, List.modify]

theorem lane_scenario_witness :
    ((flattenLoads
      { ranges := [⟨0, 10, 0⟩, ⟨5, 10, 1⟩, ⟨20, 10, 3⟩]
        m_data := [⟨7, -1, -1⟩, ⟨7, -1, -1⟩, ⟨8, -1, -1⟩]
        collapsedRowCount := 0
        expandedRowCount := 0 }).m_data.map SceneGraphEvent.rowNumberCollapsed) = [1, 2, 1] :=
  lane_scenario 0 1 3 ⟨7, -1, -1⟩ ⟨7, -1, -1⟩ ⟨8, -1, -1⟩ 0 0 (by decide) (by decide) (by decide)

/-! ## The collapsed row count -/

theorem collapsedRowCount_succ (m : SceneGraphTimelineModel) (n : Nat) :
    (flattenLoop m (n + 1)).collapsedRowCount =
      if (assignedRow m n : Int) + 1 > (flattenLoop m n).collapsedRowCount then
        (assignedRow m n : Int) + 1
      else (flattenLoop m n).collapsedRowCount := rfl

/-- The counter of the loop is the greatest row number given out so far. -/
theorem collapsedRowCount_loop (m : SceneGraphTimelineModel) :
    ∀ n, (∀ i, i < n → (assignedRow m i : Int) + 1 ≤ (flattenLoop m n).collapsedRowCount) ∧
      (0 < n → ∃ i, i < n ∧ (flattenLoop m n).collapsedRowCount = (assignedRow m i : Int) + 1) ∧
      (n = 0 → (flattenLoop m n).collapsedRowCount = 0) := by
  intro n
  induction n with
  | zero =>
    refine ⟨fun i hi => by omega, fun h => by omega, fun _ => rfl⟩
  | succ n ih =>
    obtain ⟨h1, h2, h3⟩ := ih
    rw [collapsedRowCount_succ]
    refine ⟨?_, ?_, fun h => by omega⟩
    · intro i hi
      by_cases h : i = n
      · subst h
        split <;> omega
      · have := h1 i (by omega)
        split <;> omega
    · intro _
      split
      · exact ⟨n, by omega, rfl⟩
      · rename_i hc
        rcases Nat.eq_zero_or_pos n with h0 | h0
        · have := h3 h0
          omega
        · obtain ⟨i, hi, h4⟩ := h2 h0
          exact ⟨i, by omega, h4⟩

/-- C9, as stated, fails: in `singleStore` the greatest collapsedRow after flattenLoads is 1
and the collapsed row count that is set is 2, which is not 1 + 2. -/
theorem collapsed_row_count_counterexample :
    singleStore.WellFormed ∧ 0 < singleStore.count ∧
    (∀ i, i < singleStore.count → (flattenLoads singleStore).collapsedRow i ≤ 1) ∧
    (flattenLoads singleStore).collapsedRow 0 = 1 ∧
    (flattenLoads singleStore).collapsedRowCount = 2 ∧
    (flattenLoads singleStore).collapsedRowCount ≠ 1 + 2 := by
  decide

/-- C9, amended: after flattenLoads on a non-empty store the collapsed row count that is set
is the greatest of the final collapsedRow values plus 1: some interval has collapsedRow + 1
equal to the count, and no interval has more. -/
theorem collapsed_row_count_is_max_plus_one (m : SceneGraphTimelineModel) (hwf : m.WellFormed)
    (hne : 0 < m.count) :
    (∃ i, i < m.count ∧ (flattenLoads m).collapsedRowCount = (flattenLoads m).collapsedRow i + 1) ∧
    (∀ j, j < m.count → (flattenLoads m).collapsedRow j + 1 ≤ (flattenLoads m).collapsedRowCount) := by
  obtain ⟨h1, h2, _⟩ := collapsedRowCount_loop m m.count
  have hc : (flattenLoads m).collapsedRowCount = (flattenLoop m m.count).collapsedRowCount + 1 :=
    rfl
  constructor
  · obtain ⟨i, hi, h4⟩ := h2 hne
    exact ⟨i, hi, by rw [hc, flattenLoads_collapsedRow m hwf i hi, h4]⟩
  · intro j hj
    rw [hc, flattenLoads_collapsedRow m hwf j hj]
    have := h1 j hj
    omega

theorem collapsed_row_count_is_max_plus_one_witness :
    (∃ i, i < isolationStore.count ∧
      (flattenLoads isolationStore).collapsedRowCount =
        (flattenLoads isolationStore).collapsedRow i + 1) ∧
    (∀ j, j < isolationStore.count →
      (flattenLoads isolationStore).collapsedRow j + 1 ≤
        (flattenLoads isolationStore).collapsedRowCount) :=
  collapsed_row_count_is_max_plus_one isolationStore (by decide) (by decide)

/-! ## loadData: what one event adds -/

theorem insert_wellFormed (m : SceneGraphTimelineModel) (hwf : m.WellFormed)
    (start duration typeIndex : Int) (stage : SceneGraphStage) (glyphCount : Int) :
    (m.insert start duration typeIndex stage glyphCount).2.WellFormed := by
  have h1 := insert_ranges m start duration typeIndex stage glyphCount
  have h2 := insert_m_data m hwf start duration typeIndex stage glyphCount
  unfold WellFormed at *
  rw [h1, h2]
  split <;> simp [hwf]

/-- The ranges that the loop body of `loadData` adds for an accepted event are those of the
chain of `insert` calls of its rule. -/
theorem loadEvent_ranges (accepted : QmlEventTypeData → Bool) (types : Int → QmlEventTypeData)
    (m : SceneGraphTimelineModel) (event : QmlEventData)
    (hacc : accepted (types event.typeIndex) = true) :
    (loadEvent accepted types m event).ranges =
      m.ranges ++ reconstruct (types event.typeIndex).detailType event := by
  unfold loadEvent
  simp only [hacc, Bool.not_true, Bool.false_eq_true, if_false]
  cases (types event.typeIndex).detailType <;>
    simp [insert_ranges, insert_fst, reconstruct, walk, ruleStages, usedSum, usedValues,
      sub_eq_add_neg, add_assoc, add_comm, add_left_comm]

theorem loadEvent_not_accepted (accepted : QmlEventTypeData → Bool)
    (types : Int → QmlEventTypeData) (m : SceneGraphTimelineModel) (event : QmlEventData)
    (hacc : accepted (types event.typeIndex) = false) :
    loadEvent accepted types m event = m := by
  unfold loadEvent
  simp [hacc]

theorem loadEvent_wellFormed (accepted : QmlEventTypeData → Bool)
    (types : Int → QmlEventTypeData) (m : SceneGraphTimelineModel) (event : QmlEventData)
    (hwf : m.WellFormed) : (loadEvent accepted types m event).WellFormed := by
  by_cases hacc : accepted (types event.typeIndex) = true
  · unfold loadEvent
    simp only [hacc, Bool.not_true, Bool.false_eq_true, if_false]
    cases (types event.typeIndex).detailType <;> simp only [] <;>
      first
        | exact hwf
        | ((repeat apply insert_wellFormed); exact hwf)
  · rw [loadEvent_not_accepted accepted types m event (by simpa using hacc)]
    exact hwf

/-! ## Chains of insert calls -/

theorem walk_duration_pos (l : List (Int × SceneGraphStage)) :
    ∀ c, ∀ r ∈ walk c l, 0 < r.duration := by
  induction l with
  | nil => intro c r hr; simp [walk] at hr
  | cons p rest ih =>
    intro c r hr
    obtain ⟨d, stage⟩ := p
    simp only [walk, List.mem_append] at hr
    rcases hr with hr | hr
    · by_cases hd : d ≤ 0
      · simp [hd] at hr
      · simp only [hd, if_false, List.mem_singleton] at hr
        subst hr
        exact not_le.mp hd
    · exact ih _ r hr

theorem walk_of_nonneg (d : Int) (stage : SceneGraphStage) (rest : List (Int × SceneGraphStage))
    (c : Int) (hd : 0 ≤ d) :
    walk c ((d, stage) :: rest) =
      if d = 0 then walk c rest
      else { start := c, duration := d, selectionId := stage.toInt } :: walk (c + d) rest := by
  by_cases h : d = 0
  · subst h
    simp [walk]
  · have h2 : ¬ d ≤ 0 := by omega
    simp [walk, h, h2]

/-- With non-negative durations the stored ranges of a chain of insert calls are back to
back, start at the cursor, end at the cursor plus the sum of the durations, and their
durations add up to that sum. -/
theorem walk_spec (l : List (Int × SceneGraphStage)) :
    ∀ c, (∀ p ∈ l, 0 ≤ p.1) →
      List.Chain' (fun a b : Range => b.start = a.start + a.duration) (walk c l) ∧
      (∀ r ∈ (walk c l).head?, r.start = c) ∧
      (∀ r ∈ (walk c l).getLast?, r.start + r.duration = c + (l.map Prod.fst).sum) ∧
      ((walk c l).map Range.duration).sum = (l.map Prod.fst).sum ∧
      (∀ r ∈ walk c l, c ≤ r.start ∧ r.start + r.duration ≤ c + (l.map Prod.fst).sum) := by
  induction l with
  | nil =>
    intro c _
    simp [walk]
  | cons p rest ih =>
    intro c hnn
    obtain ⟨d, stage⟩ := p
    have hd : 0 ≤ d := hnn (d, stage) (List.mem_cons_self _ _)
    have hrest : ∀ p ∈ rest, 0 ≤ p.1 := fun p hp => hnn p (List.mem_cons_of_mem _ hp)
    rw [walk_of_nonneg d stage rest c hd]
    by_cases h0 : d = 0
    · subst h0
      simp only [if_true, List.map_cons, List.sum_cons, zero_add]
      exact ih c hrest
    · simp only [h0, if_false, List.map_cons, List.sum_cons]
      obtain ⟨i1, i2, i3, i4, i5⟩ := ih (c + d) hrest
      have hsum : 0 ≤ (rest.map Prod.fst).sum :=
        List.sum_nonneg (by
          intro x hx
          obtain ⟨p, hp, rfl⟩ := List.mem_map.mp hx
          exact hrest p hp)
      refine ⟨?_, ?_, ?_, ?_, ?_⟩
      · rw [List.chain'_cons']
        exact ⟨fun y hy => i2 y hy, i1⟩
      · intro r hr
        simp only [List.head?_cons, Option.mem_def, Option.some.injEq] at hr
        subst hr
        rfl
      · intro r hr
        cases hw : walk (c + d) rest with
        | nil =>
          rw [hw] at hr i4
          simp only [List.getLast?_singleton, Option.mem_def, Option.some.injEq] at hr
          subst hr
          simp only [List.map_nil, List.sum_nil] at i4
          show c + d = c + (d + _)
          omega
        | cons y ys =>
          rw [hw] at hr
          rw [List.getLast?_cons_cons] at hr
          rw [hw] at i3
          have := i3 r hr
          omega
      · rw [i4]
      · intro r hr
        rcases List.mem_cons.mp hr with h | h
        · subst h
          show c ≤ c ∧ c + d ≤ c + (d + _)
          omega
        · have := i5 r h
          omega

theorem walk_sorted (l : List (Int × SceneGraphStage)) :
    ∀ c, (∀ p ∈ l, 0 ≤ p.1) →
      (walk c l).Pairwise (fun a b : Range => a.start ≤ b.start) := by
  induction l with
  | nil =>
    intro c _
    simp [walk]
  | cons p rest ih =>
    intro c hnn
    obtain ⟨d, stage⟩ := p
    have hd : 0 ≤ d := hnn (d, stage) (List.mem_cons_self _ _)
    have hrest : ∀ p ∈ rest, 0 ≤ p.1 := fun p hp => hnn p (List.mem_cons_of_mem _ hp)
    rw [walk_of_nonneg d stage rest c hd]
    by_cases h0 : d = 0
    · simp only [h0, if_true]
      exact ih c hrest
    · simp only [h0, if_false]
      rw [List.pairwise_cons]
      refine ⟨?_, ih (c + d) hrest⟩
      intro r hr
      have := ((walk_spec rest (c + d) hrest).2.2.2.2 r hr).1
      show c ≤ r.start
      omega

theorem walk_stages (l : List (Int × SceneGraphStage)) :
    ∀ c, ((walk c l).map Range.selectionId).Sublist (l.map (fun p => p.2.toInt)) := by
  induction l with
  | nil =>
    intro c
    simp [walk]
  | cons p rest ih =>
    intro c
    obtain ⟨d, stage⟩ := p
    by_cases hd : d ≤ 0
    · simp only [walk, hd, if_true, List.nil_append, List.map_cons]
      exact List.Sublist.cons _ (ih _)
    · simp only [walk, hd, if_false, List.singleton_append, List.map_cons]
      exact List.Sublist.cons₂ _ (ih _)

theorem map_fst_ruleValues (t : SceneGraphFrameType) (event : QmlEventData) :
    ((ruleStages t).map (fun p => (event.numericData p.1, p.2))).map Prod.fst =
      usedValues t event := by
  simp [usedValues, List.map_map, Function.comp_def]

theorem ruleValues_nonneg (t : SceneGraphFrameType) (event : QmlEventData)
    (hnn : ∀ v ∈ usedValues t event, 0 ≤ v) :
    ∀ p ∈ (ruleStages t).map (fun p => (event.numericData p.1, p.2)), 0 ≤ p.1 := by
  intro p hp
  apply hnn
  rw [← map_fst_ruleValues]
  exact List.mem_map_of_mem _ hp

/-! ## Decomposition -/

/-- C4: decomposition conservation. For an accepted event whose used auxiliary values are
all non-negative, the ranges that the loop body of loadData stores are appended to the store
in rule order, each starts where the one before it ends, the first starts at the timestamp
minus the sum of the used values, the last ends at the timestamp, and the durations add up to
the sum of the used values. -/
theorem decomposition_conservation (accepted : QmlEventTypeData → Bool)
    (types : Int → QmlEventTypeData) (m : SceneGraphTimelineModel) (event : QmlEventData)
    (hacc : accepted (types event.typeIndex) = true)
    (hnn : ∀ v ∈ usedValues (types event.typeIndex).detailType event, 0 ≤ v) :
    ∃ stored : List Range,
      (loadEvent accepted types m event).ranges = m.ranges ++ stored ∧
      (stored.map Range.selectionId).Sublist
        ((ruleStages (types event.typeIndex).detailType).map (fun p => p.2.toInt)) ∧
      List.Chain' (fun a b : Range => b.start = a.start + a.duration) stored ∧
      (∀ r ∈ stored.head?,
        r.start = event.startTime - usedSum (types event.typeIndex).detailType event) ∧
      (∀ r ∈ stored.getLast?, r.start + r.duration = event.startTime) ∧
      (stored.map Range.duration).sum = usedSum (types event.typeIndex).detailType event := by
  refine ⟨reconstruct (types event.typeIndex).detailType event,
    loadEvent_ranges accepted types m event hacc, ?_, ?_⟩
  · have h := walk_stages
      ((ruleStages (types event.typeIndex).detailType).map
        (fun p => (event.numericData p.1, p.2)))
      (event.startTime - usedSum (types event.typeIndex).detailType event)
    simpa [reconstruct, List.map_map, Function.comp_def] using h
  · obtain ⟨h1, h2, h3, h4, _⟩ := walk_spec _
      (event.startTime - usedSum (types event.typeIndex).detailType event)
      (ruleValues_nonneg (types event.typeIndex).detailType event hnn)
    rw [map_fst_ruleValues] at h3 h4
    refine ⟨h1, h2, ?_, h4⟩
    intro r hr
    have := h3 r hr
    unfold usedSum at this
    omega

theorem decomposition_conservation_witness :
    ∃ stored : List Range,
      (loadEvent acceptAll renderLoopTypes emptyStore renderLoopEvent).ranges =
        emptyStore.ranges ++ stored ∧
      (stored.map Range.selectionId).Sublist
        ((ruleStages (renderLoopTypes renderLoopEvent.typeIndex).detailType).map
          (fun p => p.2.toInt)) ∧
      List.Chain' (fun a b : Range => b.start = a.start + a.duration) stored ∧
      (∀ r ∈ stored.head?,
        r.start = renderLoopEvent.startTime -
          usedSum (renderLoopTypes renderLoopEvent.typeIndex).detailType renderLoopEvent) ∧
      (∀ r ∈ stored.getLast?, r.start + r.duration = renderLoopEvent.startTime) ∧
      (stored.map Range.duration).sum =
        usedSum (renderLoopTypes renderLoopEvent.typeIndex).detailType renderLoopEvent :=
  decomposition_conservation acceptAll renderLoopTypes emptyStore renderLoopEvent (by decide)
    (by decide)

theorem loadData_ranges (accepted : QmlEventTypeData → Bool) (types : Int → QmlEventTypeData)
    (events : List QmlEventData) (m : SceneGraphTimelineModel) :
    (loadData accepted types events m).ranges =
      (events.foldl (loadEvent accepted types) m).ranges := by
  unfold loadData
  split
  · rename_i h
    rw [List.isEmpty_iff] at h
    subst h
    rfl
  · rfl

/-- C6: loading a single render loop frame with the timestamp 100 and the auxiliary values
10, 0 and 20 into an empty store stores exactly two intervals, (70, 10) and (80, 20); the
instants they cover are exactly those of [70, 100). -/
theorem decomposition_scenario (accepted : QmlEventTypeData → Bool)
    (types : Int → QmlEventTypeData) (typeIndex n3 n4 c x : Int)
    (hacc : accepted (types typeIndex) = true)
    (htype : (types typeIndex).detailType = .SceneGraphRenderLoopFrame) :
    (loadData accepted types [⟨100, typeIndex, 10, 0, 20, n3, n4⟩]
      { ranges := [], m_data := [], collapsedRowCount := c, expandedRowCount := x }).ranges =
      [⟨70, 10, SceneGraphStage.RenderThreadSync.toInt⟩, ⟨80, 20, SceneGraphStage.Swap.toInt⟩] ∧
    (loadData accepted types [⟨100, typeIndex, 10, 0, 20, n3, n4⟩]
      { ranges := [], m_data := [], collapsedRowCount := c, expandedRowCount := x }).m_data.length
      = 2 ∧
    ∀ t : Int,
      (∃ r ∈ (loadData accepted types [⟨100, typeIndex, 10, 0, 20, n3, n4⟩]
          { ranges := [], m_data := [], collapsedRowCount := c, expandedRowCount := x }).ranges,
        r.start ≤ t ∧ t < r.start + r.duration) ↔ (70 ≤ t ∧ t < 100) := by
  have hr : (loadData accepted types [⟨100, typeIndex, 10, 0, 20, n3, n4⟩]
      { ranges := [], m_data := [], collapsedRowCount := c, expandedRowCount := x }).ranges =
      [⟨70, 10, SceneGraphStage.RenderThreadSync.toInt⟩, ⟨80, 20, SceneGraphStage.Swap.toInt⟩] := by
    rw [loadData_ranges]
    simp only [List.foldl_cons, List.foldl_nil]
    rw [loadEvent_ranges accepted types _ _ hacc]
    simp [htype, reconstruct, walk, ruleStages, usedSum, usedValues, QmlEventData.numericData]
  refine ⟨hr, ?_, ?_⟩
  · have hwf : (loadData accepted types [⟨100, typeIndex, 10, 0, 20, n3, n4⟩]
        { ranges := [], m_data := [], collapsedRowCount := c,
          expandedRowCount := x }).WellFormed := by
      unfold loadData
      simp only [List.isEmpty_cons, Bool.false_eq_true, if_false, List.foldl_cons,
        List.foldl_nil]
      exact flattenLoads_wellFormed _ (loadEvent_wellFormed _ _ _ _ rfl)
    unfold WellFormed at hwf
    rw [hwf, hr]
    rfl
  · intro t
    rw [hr]
    simp only [List.mem_cons, List.mem_singleton, List.not_mem_nil, or_false, exists_eq_or_imp,
      exists_eq_left]
    omega

theorem decomposition_scenario_witness :
    (loadData acceptAll renderLoopTypes [⟨100, 0, 10, 0, 20, 0, 0⟩]
      { ranges := [], m_data := [], collapsedRowCount := 0, expandedRowCount := 0 }).ranges =
      [⟨70, 10, SceneGraphStage.RenderThreadSync.toInt⟩, ⟨80, 20, SceneGraphStage.Swap.toInt⟩] :=
  (decomposition_scenario acceptAll renderLoopTypes 0 0 0 0 0 rfl rfl).1

/-! ## Well-formed stores -/

theorem foldl_loadEvent_wellFormed (accepted : QmlEventTypeData → Bool)
    (types : Int → QmlEventTypeData) (events : List QmlEventData) :
    ∀ m : SceneGraphTimelineModel, m.WellFormed →
      (events.foldl (loadEvent accepted types) m).WellFormed := by
  induction events with
  | nil => intro m h; exact h
  | cons e rest ih =>
    intro m h
    exact ih _ (loadEvent_wellFormed accepted types m e h)

theorem loadData_wellFormed (accepted : QmlEventTypeData → Bool)
    (types : Int → QmlEventTypeData) (events : List QmlEventData) (m : SceneGraphTimelineModel)
    (hwf : m.WellFormed) : (loadData accepted types events m).WellFormed := by
  unfold loadData
  split
  · exact hwf
  · exact flattenLoads_wellFormed _ (foldl_loadEvent_wellFormed accepted types events m hwf)

theorem clear_wellFormed (m : SceneGraphTimelineModel) : (clear m).WellFormed := rfl

/-- Every store reached from a well-formed one by loadData passes and clear calls is
well-formed: the two vectors stay parallel. -/
theorem applyOps_wellFormed (accepted : QmlEventTypeData → Bool)
    (types : Int → QmlEventTypeData) (ops : List ModelOp) :
    ∀ m : SceneGraphTimelineModel, m.WellFormed → (applyOps accepted types m ops).WellFormed := by
  induction ops with
  | nil => intro m h; exact h
  | cons op rest ih =>
    intro m h
    apply ih
    cases op with
    | loadData events => exact loadData_wellFormed accepted types events m h
    | clear => exact clear_wellFormed m

/-! ## Durations in the store -/

theorem loadEvent_positive (accepted : QmlEventTypeData → Bool) (types : Int → QmlEventTypeData)
    (m : SceneGraphTimelineModel) (event : QmlEventData) (hpos : m.PositiveDurations) :
    (loadEvent accepted types m event).PositiveDurations := by
  by_cases hacc : accepted (types event.typeIndex) = true
  · unfold PositiveDurations
    rw [loadEvent_ranges accepted types m event hacc]
    intro r hr
    rcases List.mem_append.mp hr with h | h
    · exact hpos r h
    · exact walk_duration_pos _ _ r h
  · rw [loadEvent_not_accepted accepted types m event (by simpa using hacc)]
    exact hpos

theorem foldl_loadEvent_positive (accepted : QmlEventTypeData → Bool)
    (types : Int → QmlEventTypeData) (events : List QmlEventData) :
    ∀ m : SceneGraphTimelineModel, m.PositiveDurations →
      (events.foldl (loadEvent accepted types) m).PositiveDurations := by
  induction events with
  | nil => intro m h; exact h
  | cons e rest ih =>
    intro m h
    exact ih _ (loadEvent_positive accepted types m e h)

theorem loadData_positive (accepted : QmlEventTypeData → Bool) (types : Int → QmlEventTypeData)
    (events : List QmlEventData) (m : SceneGraphTimelineModel) (hpos : m.PositiveDurations) :
    (loadData accepted types events m).PositiveDurations := by
  unfold PositiveDurations
  rw [loadData_ranges]
  exact foldl_loadEvent_positive accepted types events m hpos

/-- C8: stored durations are always positive. From a store whose intervals all have a
positive duration, as the empty store of a new model has, every sequence of loadData passes
and clear calls leads to a store whose intervals all have a positive duration, whatever the
signs of the auxiliary values of the events. -/
theorem stored_durations_positive (accepted : QmlEventTypeData → Bool)
    (types : Int → QmlEventTypeData) (ops : List ModelOp) :
    ∀ m : SceneGraphTimelineModel, m.PositiveDurations →
      (applyOps accepted types m ops).PositiveDurations := by
  induction ops with
  | nil => intro m h; exact h
  | cons op rest ih =>
    intro m h
    apply ih
    cases op with
    | loadData events => exact loadData_positive accepted types events m h
    | clear =>
      intro r hr
      simp [applyOp, clear, timelineClear] at hr

theorem stored_durations_positive_witness :
    (applyOps acceptAll renderLoopTypes emptyStore
      [.loadData [⟨100, 0, 10, -3, 20, 0, 0⟩], .clear,
        .loadData [⟨50, 0, 0, 7, -1, 0, 0⟩]]).PositiveDurations :=
  stored_durations_positive acceptAll renderLoopTypes
    [.loadData [⟨100, 0, 10, -3, 20, 0, 0⟩], .clear, .loadData [⟨50, 0, 0, 7, -1, 0, 0⟩]]
    emptyStore (by decide)

/-! ## The order of the start times -/

/-- C10, as stated, fails: two accepted polish frames in timestamp order, with non-negative
auxiliary values, yield the start times 90 and 60, in this order. -/
theorem start_order_counterexample :
    nestedPolishEvents.Pairwise (fun a b => a.startTime ≤ b.startTime) ∧
    (∀ e ∈ nestedPolishEvents, acceptAll (polishTypes e.typeIndex) = true) ∧
    (∀ e ∈ nestedPolishEvents, ∀ v ∈ usedValues (polishTypes e.typeIndex).detailType e, 0 ≤ v) ∧
    (loadData acceptAll polishTypes nestedPolishEvents emptyStore).ranges.map Range.start
      = [90, 60] ∧
    ¬ (loadData acceptAll polishTypes nestedPolishEvents emptyStore).StartsSorted := by
  decide

theorem foldl_loadEvent_sorted (accepted : QmlEventTypeData → Bool)
    (types : Int → QmlEventTypeData) (events : List QmlEventData) :
    ∀ (m : SceneGraphTimelineModel) (bound : Int), m.StartsSorted →
      (∀ r ∈ m.ranges, r.start ≤ bound) →
      (∀ e ∈ events, accepted (types e.typeIndex) = true) →
      (∀ e ∈ events, ∀ v ∈ usedValues (types e.typeIndex).detailType e, 0 ≤ v) →
      (∀ e ∈ events.head?, bound ≤ e.startTime - usedSum (types e.typeIndex).detailType e) →
      events.Chain'
        (fun a b => a.startTime ≤ b.startTime - usedSum (types b.typeIndex).detailType b) →
      (events.foldl (loadEvent accepted types) m).StartsSorted := by
  induction events with
  | nil => intro m _ h _ _ _ _ _; exact h
  | cons e rest ih =>
    intro m bound hs hb hacc hnn hhead hchain
    have hacce := hacc e (List.mem_cons_self _ _)
    have hnne := hnn e (List.mem_cons_self _ _)
    have hbe : bound ≤ e.startTime - usedSum (types e.typeIndex).detailType e :=
      hhead e (by simp)
    obtain ⟨_, _, _, _, w5⟩ := walk_spec _
      (e.startTime - usedSum (types e.typeIndex).detailType e)
      (ruleValues_nonneg (types e.typeIndex).detailType e hnne)
    rw [map_fst_ruleValues] at w5
    have hsum : 0 ≤ usedSum (types e.typeIndex).detailType e := List.sum_nonneg hnne
    rw [List.foldl_cons]
    rw [List.chain'_cons'] at hchain
    apply ih (loadEvent accepted types m e) e.startTime
    · unfold StartsSorted
      rw [loadEvent_ranges accepted types m e hacce, List.pairwise_append]
      refine ⟨hs, walk_sorted _ _ (ruleValues_nonneg _ e hnne), ?_⟩
      intro a ha b hb2
      have h1 := hb a ha
      have h2 := (w5 b hb2).1
      omega
    · intro r hr
      rw [loadEvent_ranges accepted types m e hacce] at hr
      rcases List.mem_append.mp hr with h | h
      · have := hb r h
        omega
      · have h2 := w5 r h
        have h3 := walk_duration_pos _ _ r h
        unfold usedSum at h2 hsum hbe
        omega
    · exact fun e2 h => hacc e2 (List.mem_cons_of_mem _ h)
    · exact fun e2 h => hnn e2 (List.mem_cons_of_mem _ h)
    · exact hchain.1
    · exact hchain.2

/-! ## Minimality -/

theorem mem_categoryIndices (m : SceneGraphTimelineModel) (c i : Nat) :
    i ∈ categoryIndices m c ↔ i < m.count ∧ categoryRow (m.selectionId i) = c := by
  simp [categoryIndices]

theorem categoryIndices_nodup (m : SceneGraphTimelineModel) (c : Nat) :
    (categoryIndices m c).Nodup :=
  (List.nodup_range _).filter _

theorem categoryIndices_flattenLoads (m : SceneGraphTimelineModel) (c : Nat) :
    categoryIndices (flattenLoads m) c = categoryIndices m c := rfl

theorem length_le_of_nodup_subset {α : Type} (l1 l2 : List α) (hn : l1.Nodup) (hs : l1 ⊆ l2) :
    l1.length ≤ l2.length :=
  (List.subperm_of_subset hn hs).length_le

/-- Intervals of one category that are active at the same instant lie in different rows, so
there are at least as many rows as intervals active at once. -/
theorem activeAt_le_rowsUsed (m : SceneGraphTimelineModel) (hwf : m.WellFormed)
    (hpos : m.PositiveDurations) (c : Nat) (t : Int) :
    activeAt m c t ≤ (rowsUsed (flattenLoads m) c).length := by
  unfold activeAt rowsUsed
  rw [categoryIndices_flattenLoads]
  have hnd : ((categoryIndices m c).filter
      (fun i => m.startTime i ≤ t ∧ t < m.endTime i)).Nodup :=
    (categoryIndices_nodup m c).filter _
  have hinj : (((categoryIndices m c).filter
      (fun i => m.startTime i ≤ t ∧ t < m.endTime i)).map (flattenLoads m).collapsedRow).Nodup := by
    apply List.Nodup.map_on _ hnd
    intro i hi j hj hrow
    simp only [List.mem_filter, mem_categoryIndices, decide_eq_true_eq] at hi hj
    by_contra hne
    have h := same_collapsedRow_disjoint m hwf hpos i j hi.1.1 hj.1.1 hne hrow
    omega
  rw [← List.length_map _ (flattenLoads m).collapsedRow]
  apply length_le_of_nodup_subset _ _ hinj
  intro r hr
  rw [List.mem_dedup]
  obtain ⟨i, hi, rfl⟩ := List.mem_map.mp hr
  exact List.mem_map_of_mem _ (List.mem_of_mem_filter hi)

/-- The distinct rows of a category are at most as many as the rows from the first row of
the category up to the highest row given to any interval. -/
theorem rowsUsed_le (m : SceneGraphTimelineModel) (hwf : m.WellFormed) (c top : Nat)
    (htop : ∀ i, i < m.count → assignedRow m i ≤ top) :
    (rowsUsed (flattenLoads m) c).length ≤ top + 1 - c := by
  have h : (rowsUsed (flattenLoads m) c).length ≤
      ((List.range' c (top + 1 - c)).map (fun k : Nat => (k : Int) + 1)).length := by
    apply length_le_of_nodup_subset _ _ (List.nodup_dedup _)
    intro r hr
    rw [List.mem_dedup, categoryIndices_flattenLoads] at hr
    obtain ⟨i, hi, rfl⟩ := List.mem_map.mp hr
    rw [mem_categoryIndices] at hi
    rw [flattenLoads_collapsedRow m hwf i hi.1]
    apply List.mem_map_of_mem
    rw [List.mem_range']
    have h1 := (assignedRow_spec m i).1
    have h2 := htop i hi.1
    rw [hi.2] at h1
    exact ⟨assignedRow m i - c, by omega, by omega⟩
  simpa using h

/-- In a store with intervals of one category only, every row from the first row of the
category up to the row of interval `n` holds an interval that is active when `n` starts. -/
theorem rows_le_activeAt (m : SceneGraphTimelineModel) (hpos : m.PositiveDurations)
    (hsorted : m.StartsSorted) (c : Nat)
    (hcat : ∀ i, i < m.count → categoryRow (m.selectionId i) = c) (n : Nat) (hn : n < m.count) :
    assignedRow m n + 1 - c ≤ activeAt m c (m.startTime n) := by
  have h : (List.range' c (assignedRow m n + 1 - c)).length ≤
      (((categoryIndices m c).filter
        (fun i => m.startTime i ≤ m.startTime n ∧ m.startTime n < m.endTime i)).map
          (assignedRow m)).length := by
    apply length_le_of_nodup_subset _ _ (List.nodup_range' _ _)
    intro k hk
    rw [List.mem_range'] at hk
    obtain ⟨d, hd, rfl⟩ := hk
    rw [List.mem_map]
    have hspec := assignedRow_spec m n
    rw [hcat n hn] at hspec
    by_cases hlast : c + 1 * d = assignedRow m n
    · refine ⟨n, ?_, hlast.symm⟩
      simp only [List.mem_filter, mem_categoryIndices, decide_eq_true_eq]
      exact ⟨⟨hn, hcat n hn⟩, le_refl _, duration_pos m hpos n hn⟩
    · obtain ⟨h1, h2⟩ := hspec.2.2.1 (c + 1 * d) (by omega) (by omega)
      rcases row_content m n (c + 1 * d) h1 with ⟨j, hj, h3, h4⟩ | ⟨_, j, hj, h4⟩
      · refine ⟨j, ?_, h3⟩
        simp only [List.mem_filter, mem_categoryIndices, decide_eq_true_eq]
        refine ⟨⟨by omega, hcat j (by omega)⟩,
          startTime_mono m hsorted j n (by omega) hn, ?_⟩
        omega
      · rw [hcat j (by omega)] at h4
        omega
  simpa [activeAt] using h

/-- C3, as stated, fails: in `minimalityStore` the GUI thread intervals get three distinct
collapsed rows, but at no instant more than two of them are active. -/
theorem minimality_counterexample :
    minimalityStore.WellFormed ∧ minimalityStore.PositiveDurations ∧
    minimalityStore.StartsSorted ∧
    (rowsUsed (flattenLoads minimalityStore) 0).length = 3 ∧
    ∀ t : Int, activeAt minimalityStore 0 t ≤ 2 := by
  refine ⟨by decide, by decide, by decide, by decide, ?_⟩
  intro t
  have h : categoryIndices minimalityStore 0 = [0, 1, 3] := by decide
  unfold activeAt
  rw [h]
  simp only [List.filter_cons, List.filter_nil, startTime, endTime, duration, minimalityStore,
    List.getD_cons_zero, List.getD_cons_succ]
  split_ifs <;> simp_all
  omega

/-- C3, amended: in a store with positive durations and non-decreasing start times the
number of distinct collapsed rows that flattenLoads gives to the intervals of a category is
at least the number of intervals of that category active at any instant, and when all stored
intervals belong to that category it is the greatest such number. -/
theorem minimality_single_category (m : SceneGraphTimelineModel) (hwf : m.WellFormed)
    (hpos : m.PositiveDurations) (hsorted : m.StartsSorted) (c : Nat) :
    (∀ t : Int, activeAt m c t ≤ (rowsUsed (flattenLoads m) c).length) ∧
    ((∀ i, i < m.count → categoryRow (m.selectionId i) = c) →
      ∃ t : Int, activeAt m c t = (rowsUsed (flattenLoads m) c).length) := by
  refine ⟨fun t => activeAt_le_rowsUsed m hwf hpos c t, ?_⟩
  intro hcat
  rcases Nat.eq_zero_or_pos m.count with h0 | h0
  · refine ⟨0, ?_⟩
    have h1 : categoryIndices m c = [] := by
      simp [categoryIndices, h0]
    simp [activeAt, rowsUsed, categoryIndices_flattenLoads, h1]
  · obtain ⟨n, hn, hmax⟩ := Finset.exists_max_image (Finset.range m.count) (assignedRow m)
      ⟨0, Finset.mem_range.mpr h0⟩
    rw [Finset.mem_range] at hn
    refine ⟨m.startTime n, le_antisymm (activeAt_le_rowsUsed m hwf hpos c _) ?_⟩
    have h1 := rowsUsed_le m hwf c (assignedRow m n)
      (fun i hi => hmax i (Finset.mem_range.mpr hi))
    have h2 := rows_le_activeAt m hpos hsorted c hcat n hn
    omega

theorem minimality_single_category_witness :
    activeAt minimalityStore 0 5 ≤ (rowsUsed (flattenLoads minimalityStore) 0).length ∧
    (flattenLoads packedStore).m_data.map SceneGraphEvent.rowNumberCollapsed = [1, 2, 3, 1] ∧
    (rowsUsed (flattenLoads packedStore) 0).length = 3 ∧
    ∃ t : Int, activeAt packedStore 0 t = (rowsUsed (flattenLoads packedStore) 0).length :=
  ⟨(minimality_single_category minimalityStore (by decide) (by decide) (by decide) 0).1 5,
   by decide, by decide,
   (minimality_single_category packedStore (by decide) (by decide) (by decide) 0).2
     (by decide)⟩

/-! ## Categories -/

theorem categoryRow_cases (s : Int) :
    (s < MaximumGUIThreadStage ∧ categoryRow s = SceneGraphGUIThread) ∨
    (MaximumGUIThreadStage ≤ s ∧ s < MaximumRenderThreadStage ∧
      categoryRow s = SceneGraphRenderThread) ∨
    (MaximumRenderThreadStage ≤ s ∧ categoryRow s = SceneGraphRenderThreadDetails) := by
  unfold categoryRow
  by_cases h1 : s < MaximumGUIThreadStage
  · left
    simp [h1]
  · by_cases h2 : s < MaximumRenderThreadStage
    · right; left
      simp [h1, h2, not_lt.mp h1]
    · right; right
      simp [h1, h2, not_lt.mp h2]

/-- An interval whose start is not before the end time kept for the first row of its
category gets that row. -/
theorem assignedRow_eq_floor (m : SceneGraphTimelineModel) (n : Nat)
    (h : (flattenLoop m n).eventEndTimes.getD (categoryRow (m.selectionId n)) 0 ≤
      m.startTime n) :
    assignedRow m n = categoryRow (m.selectionId n) := by
  obtain ⟨h1, _, h3, _⟩ := assignedRow_spec m n
  by_contra hne
  have := (h3 (categoryRow (m.selectionId n)) (le_refl _) (by omega)).2
  omega

/-- C11: the category of a stage is decided by strict comparisons with the two thresholds,
so the stages at the thresholds, Render Thread Sync and Render Preprocess, belong to the
upper category; the row at which the probe of flattenLoads starts is the index of the label
that threadLabel returns, and it is the row an interval gets in a store of its own. -/
theorem category_thresholds :
    (∀ s : Int, categoryRow s = SceneGraphGUIThread ↔ s < MaximumGUIThreadStage) ∧
    (∀ s : Int, categoryRow s = SceneGraphRenderThread ↔
      MaximumGUIThreadStage ≤ s ∧ s < MaximumRenderThreadStage) ∧
    (∀ s : Int, categoryRow s = SceneGraphRenderThreadDetails ↔ MaximumRenderThreadStage ≤ s) ∧
    (SceneGraphStage.RenderThreadSync.toInt = MaximumGUIThreadStage ∧
      categoryRow SceneGraphStage.RenderThreadSync.toInt = SceneGraphRenderThread) ∧
    (SceneGraphStage.RenderPreprocess.toInt = MaximumRenderThreadStage ∧
      categoryRow SceneGraphStage.RenderPreprocess.toInt = SceneGraphRenderThreadDetails) ∧
    (∀ stage : SceneGraphStage, threadLabel stage = threadLabelAt (categoryRow stage.toInt)) ∧
    (∀ stage : SceneGraphStage,
      ThreadLabels.indexOf (threadLabel stage) = categoryRow stage.toInt) ∧
    (∀ (r : Range) (e : SceneGraphEvent) (c x : Int),
      (flattenLoads (SceneGraphTimelineModel.mk [r] [e] c x)).collapsedRow 0 =
        (categoryRow r.selectionId : Int) + 1) := by
  refine ⟨?_, ?_, ?_, ⟨rfl, rfl⟩, ⟨rfl, rfl⟩, ?_, ?_, ?_⟩
  · intro s
    simp only [categoryRow, SceneGraphGUIThread, SceneGraphRenderThread,
      SceneGraphRenderThreadDetails, MaximumGUIThreadStage, MaximumRenderThreadStage]
    split_ifs <;> constructor <;> intro h <;> first | omega | contradiction
  · intro s
    simp only [categoryRow, SceneGraphGUIThread, SceneGraphRenderThread,
      SceneGraphRenderThreadDetails, MaximumGUIThreadStage, MaximumRenderThreadStage]
    split_ifs <;> constructor <;> intro h <;> first | omega | contradiction
  · intro s
    simp only [categoryRow, SceneGraphGUIThread, SceneGraphRenderThread,
      SceneGraphRenderThreadDetails, MaximumGUIThreadStage, MaximumRenderThreadStage]
    split_ifs <;> constructor <;> intro h <;> first | omega | contradiction
  · intro stage
    cases stage <;> rfl
  · intro stage
    cases stage <;> decide
  · intro r e c x
    rw [flattenLoads_collapsedRow _ (by unfold WellFormed; rfl) 0 (by simp [count])]
    rfl

/-! ## The probe: adjacency, first fit, floors and ranges of rows -/

/-- C12: adjacency is not overlap. An interval that starts at the end time kept for the
first row of its category gets that row; two intervals of one category of which the second
starts where the first ends, as the only content of a store, get the same collapsed row. -/
theorem adjacency_is_not_overlap :
    (∀ (m : SceneGraphTimelineModel) (n : Nat), m.WellFormed → n < m.count →
      (flattenLoop m n).eventEndTimes.getD (categoryRow (m.selectionId n)) 0 = m.startTime n →
      (flattenLoads m).collapsedRow n = (categoryRow (m.selectionId n) : Int) + 1) ∧
    (∀ (a d1 d2 s1 s2 : Int) (e1 e2 : SceneGraphEvent) (c x : Int),
      categoryRow s1 = categoryRow s2 →
      (flattenLoads (SceneGraphTimelineModel.mk [⟨a, d1, s1⟩, ⟨a + d1, d2, s2⟩] [e1, e2] c
        x)).collapsedRow 0 =
      (flattenLoads (SceneGraphTimelineModel.mk [⟨a, d1, s1⟩, ⟨a + d1, d2, s2⟩] [e1, e2] c
        x)).collapsedRow 1) := by
  constructor
  · intro m n hwf hn h
    rw [flattenLoads_collapsedRow m hwf n hn, assignedRow_eq_floor m n (le_of_eq h)]
  · intro a d1 d2 s1 s2 e1 e2 c x hcat
    have hwf : (SceneGraphTimelineModel.mk [⟨a, d1, s1⟩, ⟨a + d1, d2, s2⟩] [e1, e2] c
        x).WellFormed := by
      unfold WellFormed
      rfl
    rw [flattenLoads_collapsedRow _ hwf 0 (by simp [count]),
      flattenLoads_collapsedRow _ hwf 1 (by simp [count])]
    have h0 : assignedRow (SceneGraphTimelineModel.mk [⟨a, d1, s1⟩, ⟨a + d1, d2, s2⟩] [e1, e2]
        c x) 0 = categoryRow s1 := rfl
    have h1 : assignedRow (SceneGraphTimelineModel.mk [⟨a, d1, s1⟩, ⟨a + d1, d2, s2⟩] [e1, e2]
        c x) 1 = categoryRow s2 := by
      apply assignedRow_eq_floor
      rw [eventEndTimes_getD_succ, h0]
      show (if categoryRow s2 = categoryRow s1 then a + d1 else _) ≤ a + d1
      rw [if_pos hcat.symm]
    rw [h0, h1, hcat]

theorem adjacency_is_not_overlap_witness :
    (flattenLoads minimalityStore).collapsedRow 2 =
      (categoryRow (minimalityStore.selectionId 2) : Int) + 1 :=
  adjacency_is_not_overlap.1 minimalityStore 2 (by decide) (by decide) (by decide)

theorem startTime_nonneg (m : SceneGraphTimelineModel) (hnn : ∀ r ∈ m.ranges, 0 ≤ r.start)
    (i : Nat) (hi : i < m.count) : 0 ≤ m.startTime i := by
  unfold startTime
  rw [List.getD_eq_getElem _ _ hi]
  exact hnn _ (List.getElem_mem _)

/-- C17, as stated, fails: in `negativeStore` the GUI thread interval, which starts before the
instant 0, skips the rows 0 and 1 (collapsed rows 1 and 2) although no interval is in them. -/
theorem first_fit_counterexample :
    negativeStore.WellFormed ∧ negativeStore.PositiveDurations ∧ negativeStore.StartsSorted ∧
    categoryRow (negativeStore.selectionId 1) = 0 ∧
    (flattenLoads negativeStore).collapsedRow 1 = 4 ∧
    (∀ j, j < negativeStore.count → (flattenLoads negativeStore).collapsedRow j ≠ 1) ∧
    (∀ j, j < negativeStore.count → (flattenLoads negativeStore).collapsedRow j ≠ 2) := by
  decide

/-- C17, amended: in a store with positive durations, non-decreasing start times and no
start time before the instant 0, every row from the first row of the category of an interval
up to, not including, the row it gets holds an interval that was processed earlier and is
active when the interval starts; and no earlier interval in the row it gets is still active
then. -/
theorem first_fit_probe (m : SceneGraphTimelineModel) (hwf : m.WellFormed)
    (hpos : m.PositiveDurations) (hsorted : m.StartsSorted)
    (hnn : ∀ r ∈ m.ranges, 0 ≤ r.start) (i : Nat) (hi : i < m.count) :
    (∀ r : Nat, categoryRow (m.selectionId i) ≤ r →
      (r : Int) + 1 < (flattenLoads m).collapsedRow i →
      ∃ j, j < i ∧ (flattenLoads m).collapsedRow j = (r : Int) + 1 ∧
        m.startTime j ≤ m.startTime i ∧ m.startTime i < m.endTime j) ∧
    (∀ j, j < i → (flattenLoads m).collapsedRow j = (flattenLoads m).collapsedRow i →
      m.endTime j ≤ m.startTime i) := by
  constructor
  · intro r hfloor hr
    rw [flattenLoads_collapsedRow m hwf i hi] at hr
    obtain ⟨h1, h2⟩ := (assignedRow_spec m i).2.2.1 r hfloor (by omega)
    rcases row_content m i r h1 with ⟨j, hj, h3, h4⟩ | ⟨h3, _⟩
    · refine ⟨j, hj, ?_, startTime_mono m hsorted j i (by omega) hi, by omega⟩
      rw [flattenLoads_collapsedRow m hwf j (by omega), h3]
    · have := startTime_nonneg m hnn i hi
      omega
  · intro j hj hrow
    rw [flattenLoads_collapsedRow m hwf i hi, flattenLoads_collapsedRow m hwf j (by omega)]
      at hrow
    exact same_row_disjoint m hpos j i hj hi (by omega)

theorem first_fit_probe_witness :
    ∃ j, j < 3 ∧ (flattenLoads minimalityStore).collapsedRow j = ((0 : Nat) : Int) + 1 ∧
      minimalityStore.startTime j ≤ minimalityStore.startTime 3 ∧
      minimalityStore.startTime 3 < minimalityStore.endTime j :=
  (first_fit_probe minimalityStore (by decide) (by decide) (by decide) (by decide) 3
    (by decide)).1 0 (by decide) (by decide)

/-- C18: category floor. After flattenLoads the collapsed row of every interval is at least
the ordinal of its category plus one; so an interval in collapsed row 1 is a GUI thread
interval, and a render thread details interval is in no collapsed row below 3. -/
theorem category_floor (m : SceneGraphTimelineModel) (hwf : m.WellFormed) (i : Nat)
    (hi : i < m.count) :
    (categoryRow (m.selectionId i) : Int) + 1 ≤ (flattenLoads m).collapsedRow i ∧
    ((flattenLoads m).collapsedRow i = 1 → m.selectionId i < MaximumGUIThreadStage) ∧
    (MaximumRenderThreadStage ≤ m.selectionId i → 3 ≤ (flattenLoads m).collapsedRow i) := by
  rw [flattenLoads_collapsedRow m hwf i hi]
  have h := (assignedRow_spec m i).1
  refine ⟨by omega, ?_, ?_⟩
  · intro h1
    rcases categoryRow_cases (m.selectionId i) with ⟨h2, _⟩ | ⟨_, _, h3⟩ | ⟨_, h3⟩
    · exact h2
    · rw [h3] at h
      unfold SceneGraphRenderThread at h
      omega
    · rw [h3] at h
      unfold SceneGraphRenderThreadDetails at h
      omega
  · intro h1
    rcases categoryRow_cases (m.selectionId i) with ⟨h2, _⟩ | ⟨_, h2, _⟩ | ⟨_, h3⟩
    · unfold MaximumGUIThreadStage at h2
      unfold MaximumRenderThreadStage at h1
      omega
    · omega
    · rw [h3] at h
      unfold SceneGraphRenderThreadDetails at h
      omega

theorem category_floor_witness :
    (categoryRow (isolationStore.selectionId 2) : Int) + 1 ≤
      (flattenLoads isolationStore).collapsedRow 2 ∧
    ((flattenLoads isolationStore).collapsedRow 2 = 1 →
      isolationStore.selectionId 2 < MaximumGUIThreadStage) ∧
    (MaximumRenderThreadStage ≤ isolationStore.selectionId 2 →
      3 ≤ (flattenLoads isolationStore).collapsedRow 2) :=
  category_floor isolationStore (by decide) 2 (by decide)

/-- C19: flattenLoads writes only layout fields. It leaves the ranges (start, duration and
stage of every interval) and the number of per-interval data entries as they are, and in
every entry the typeId and the glyphCount. -/
theorem flattenLoads_writes_layout_only (m : SceneGraphTimelineModel) :
    (flattenLoads m).ranges = m.ranges ∧
    (flattenLoads m).count = m.count ∧
    (flattenLoads m).m_data.length = m.m_data.length ∧
    (flattenLoads m).m_data.map SceneGraphEvent.typeId = m.m_data.map SceneGraphEvent.typeId ∧
    (flattenLoads m).m_data.map SceneGraphEvent.glyphCount =
      m.m_data.map SceneGraphEvent.glyphCount := by
  have hlen : (flattenLoads m).m_data.length = m.m_data.length :=
    flattenLoop_m_data_length m m.count
  have hget : ∀ i, (flattenLoads m).m_data[i]? =
      if i < m.count then
        (m.m_data[i]?).map
          (fun event => { event with rowNumberCollapsed := (assignedRow m i : Int) + 1 })
      else m.m_data[i]? := fun i => flattenLoop_m_data_get m m.count i
  refine ⟨rfl, rfl, hlen, ?_, ?_⟩
  · apply List.ext_getElem?
    intro i
    rw [List.getElem?_map, List.getElem?_map, hget]
    split
    · cases m.m_data[i]? <;> rfl
    · rfl
  · apply List.ext_getElem?
    intro i
    rw [List.getElem?_map, List.getElem?_map, hget]
    split
    · cases m.m_data[i]? <;> rfl
    · rfl

/-- C20: collapsed rows are in range. After flattenLoads every stored interval has a collapsed
row of at least 1 and below the collapsed row count, and for an empty store the collapsed row
count is 1. -/
theorem collapsed_rows_in_range (m : SceneGraphTimelineModel) (hwf : m.WellFormed) :
    (∀ i, i < m.count →
      1 ≤ (flattenLoads m).collapsedRow i ∧
      (flattenLoads m).collapsedRow i < (flattenLoads m).collapsedRowCount) ∧
    (m.count = 0 → (flattenLoads m).collapsedRowCount = 1) := by
  obtain ⟨h1, _, h3⟩ := collapsedRowCount_loop m m.count
  have hc : (flattenLoads m).collapsedRowCount = (flattenLoop m m.count).collapsedRowCount + 1 :=
    rfl
  constructor
  · intro i hi
    rw [hc, flattenLoads_collapsedRow m hwf i hi]
    have := h1 i hi
    omega
  · intro h0
    rw [hc, h3 h0]
    rfl

theorem collapsed_rows_in_range_witness :
    (1 ≤ (flattenLoads isolationStore).collapsedRow 2 ∧
      (flattenLoads isolationStore).collapsedRow 2 <
        (flattenLoads isolationStore).collapsedRowCount) ∧
    (flattenLoads emptyStore).collapsedRowCount = 1 :=
  ⟨(collapsed_rows_in_range isolationStore (by decide)).1 2 (by decide),
   (collapsed_rows_in_range emptyStore (by decide)).2 (by decide)⟩

/-! ## The row counts do not matter to a pass -/

theorem insert_setCounts (m : SceneGraphTimelineModel) (c x start duration typeIndex : Int)
    (stage : SceneGraphStage) (glyphCount : Int) :
    (setCounts m c x).insert start duration typeIndex stage glyphCount =
      ((m.insert start duration typeIndex stage glyphCount).1,
        setCounts (m.insert start duration typeIndex stage glyphCount).2 c x) := by
  unfold insert
  by_cases h : duration ≤ 0
  · simp [h]
  · simp [h, setCounts]

theorem loadEvent_setCounts (accepted : QmlEventTypeData → Bool)
    (types : Int → QmlEventTypeData) (m : SceneGraphTimelineModel) (c x : Int)
    (event : QmlEventData) :
    loadEvent accepted types (setCounts m c x) event =
      setCounts (loadEvent accepted types m event) c x := by
  unfold loadEvent
  by_cases hacc : accepted (types event.typeIndex) = true
  · simp only [hacc, Bool.not_true, Bool.false_eq_true, if_false]
    cases (types event.typeIndex).detailType <;> simp only [insert_setCounts]
  · simp [hacc]

theorem foldl_loadEvent_setCounts (accepted : QmlEventTypeData → Bool)
    (types : Int → QmlEventTypeData) (c x : Int) (events : List QmlEventData) :
    ∀ m : SceneGraphTimelineModel,
      events.foldl (loadEvent accepted types) (setCounts m c x) =
        setCounts (events.foldl (loadEvent accepted types) m) c x := by
  induction events with
  | nil => intro m; rfl
  | cons e rest ih =>
    intro m
    rw [List.foldl_cons, List.foldl_cons, loadEvent_setCounts, ih]

theorem flattenLoop_setCounts (m : SceneGraphTimelineModel) (c x : Int) (n : Nat) :
    flattenLoop (setCounts m c x) n = flattenLoop m n := by
  induction n with
  | zero => rfl
  | succ n ih =>
    show flattenStep (setCounts m c x) (flattenLoop (setCounts m c x) n) n =
      flattenStep m (flattenLoop m n) n
    rw [ih]
    rfl

theorem flattenLoads_setCounts (m : SceneGraphTimelineModel) (c x : Int) :
    flattenLoads (setCounts m c x) = flattenLoads m := by
  unfold flattenLoads
  have h : (setCounts m c x).count = m.count := rfl
  simp only [h, flattenLoop_setCounts]
  rfl

/-- A pass over at least one event gives the same model whatever the row counts were
before. -/
theorem loadData_setCounts (accepted : QmlEventTypeData → Bool)
    (types : Int → QmlEventTypeData) (events : List QmlEventData) (hne : events ≠ [])
    (m : SceneGraphTimelineModel) (c x : Int) :
    loadData accepted types events (setCounts m c x) = loadData accepted types events m := by
  unfold loadData
  have h : events.isEmpty = false := by
    cases events with
    | nil => exact absurd rfl hne
    | cons _ _ => rfl
  simp only [h, Bool.false_eq_true, if_false]
  rw [foldl_loadEvent_setCounts, flattenLoads_setCounts]

/-- C13: idempotent clear. After clear the store holds no interval and no per-interval data;
a loadData pass after clear gives the same model (intervals, data, collapsed rows and row
counts) as the same pass on a new model, whatever the state before clear was; and when the
pass has at least one event this is so for a new model with any row counts. -/
theorem idempotent_clear (accepted : QmlEventTypeData → Bool) (types : Int → QmlEventTypeData)
    (s : SceneGraphTimelineModel) (events : List QmlEventData) :
    (clear s).count = 0 ∧ (clear s).m_data = [] ∧
    loadData accepted types events (clear s) = loadData accepted types events freshModel ∧
    (∀ c x : Int, events ≠ [] →
      loadData accepted types events (clear s) =
        loadData accepted types events (SceneGraphTimelineModel.mk [] [] c x)) := by
  refine ⟨rfl, rfl, rfl, ?_⟩
  intro c x hne
  exact (loadData_setCounts accepted types events hne (clear s) c x).symm

/-! ## Events that match no rule -/

theorem loadEvent_unhandled (accepted : QmlEventTypeData → Bool)
    (types : Int → QmlEventTypeData) (m : SceneGraphTimelineModel) (event : QmlEventData)
    (code : Int) (h : (types event.typeIndex).detailType = .Unhandled code) :
    loadEvent accepted types m event = m := by
  unfold loadEvent
  simp only [h]
  split <;> rfl

theorem loadEvent_unmatched (accepted : QmlEventTypeData → Bool)
    (types : Int → QmlEventTypeData) (m : SceneGraphTimelineModel) (event : QmlEventData)
    (h : accepted (types event.typeIndex) = false ∨
      ∃ code, (types event.typeIndex).detailType = .Unhandled code) :
    loadEvent accepted types m event = m := by
  rcases h with h | ⟨code, h⟩
  · exact loadEvent_not_accepted accepted types m event h
  · exact loadEvent_unhandled accepted types m event code h

/-- C14: unmatched classifications are ignored. For an event whose type is not accepted or
whose detail type has no case in the switch, the loop body of loadData leaves the model as it
is; a pass with the event stores the same intervals as the pass without it, and gives the
same model when other events remain. -/
theorem unmatched_ignored (accepted : QmlEventTypeData → Bool) (types : Int → QmlEventTypeData)
    (m : SceneGraphTimelineModel) (event : QmlEventData)
    (h : accepted (types event.typeIndex) = false ∨
      ∃ code, (types event.typeIndex).detailType = .Unhandled code) :
    loadEvent accepted types m event = m ∧
    (∀ before after : List QmlEventData,
      (loadData accepted types (before ++ event :: after) m).ranges =
        (loadData accepted types (before ++ after) m).ranges) ∧
    (∀ before after : List QmlEventData, before ++ after ≠ [] →
      loadData accepted types (before ++ event :: after) m =
        loadData accepted types (before ++ after) m) := by
  have hfold : ∀ before after : List QmlEventData,
      (before ++ event :: after).foldl (loadEvent accepted types) m =
        (before ++ after).foldl (loadEvent accepted types) m := by
    intro before after
    rw [List.foldl_append, List.foldl_cons, List.foldl_append,
      loadEvent_unmatched accepted types _ event h]
  refine ⟨loadEvent_unmatched accepted types m event h, ?_, ?_⟩
  · intro before after
    rw [loadData_ranges, loadData_ranges, hfold]
  · intro before after hne
    unfold loadData
    have h1 : (before ++ event :: after).isEmpty = false := by
      cases before <;> rfl
    have h2 : (before ++ after).isEmpty = false := by
      cases hba : before ++ after with
      | nil => exact absurd hba hne
      | cons _ _ => rfl
    simp only [h1, h2, Bool.false_eq_true, if_false, hfold]

theorem unmatched_ignored_witness :
    loadEvent acceptAll unhandledTypes isolationStore renderLoopEvent = isolationStore :=
  (unmatched_ignored acceptAll unhandledTypes isolationStore renderLoopEvent
    (Or.inr ⟨7, rfl⟩)).1

/-! ## The glyph rule -/

/-- C15, as stated, fails: two adaptation layer frames that agree in the slots 0, 2 and 4 and
differ in slot 1 yield intervals of different durations; the duration is the value of
slot 1. -/
theorem glyph_rule_counterexample :
    glyphEvent.numericData 0 = glyphEventOdd.numericData 0 ∧
    glyphEvent.numericData 2 = glyphEventOdd.numericData 2 ∧
    glyphEvent.numericData 4 = glyphEventOdd.numericData 4 ∧
    (loadEvent acceptAll adaptationTypes emptyStore glyphEvent).ranges.map Range.duration
      = [glyphEvent.numericData 1] ∧
    (loadEvent acceptAll adaptationTypes emptyStore glyphEventOdd).ranges.map Range.duration
      = [glyphEventOdd.numericData 1] ∧
    (loadEvent acceptAll adaptationTypes emptyStore glyphEvent).ranges.map Range.duration ≠
      (loadEvent acceptAll adaptationTypes emptyStore glyphEventOdd).ranges.map Range.duration := by
  decide

/-- C15, amended: for an accepted adaptation layer frame the loop body of loadData stores a
Glyph Render interval with the duration of slot 1 and then a Glyph Upload interval with the
duration of slot 2, each only when its duration is positive, back to back from the timestamp
minus both slots; every stored interval carries the type index of the event and, as its
glyph count, the value of slot 0 converted to `int`, which is the value of slot 0 itself
when that lies in the range of `int`. -/
theorem glyph_rule (accepted : QmlEventTypeData → Bool) (types : Int → QmlEventTypeData)
    (m : SceneGraphTimelineModel) (event : QmlEventData) (hwf : m.WellFormed)
    (hacc : accepted (types event.typeIndex) = true)
    (htype : (types event.typeIndex).detailType = .SceneGraphAdaptationLayerFrame) :
    (loadEvent accepted types m event).ranges =
      m.ranges ++
        ((if event.numericData 1 ≤ 0 then []
          else [{ start := event.startTime - event.numericData 1 - event.numericData 2
                  duration := event.numericData 1
                  selectionId := SceneGraphStage.GlyphRender.toInt }]) ++
         (if event.numericData 2 ≤ 0 then []
          else [{ start := event.startTime - event.numericData 1 - event.numericData 2 +
                    (if event.numericData 1 ≤ 0 then 0 else event.numericData 1)
                  duration := event.numericData 2
                  selectionId := SceneGraphStage.GlyphStore.toInt }])) ∧
    (loadEvent accepted types m event).m_data =
      m.m_data ++
        ((if event.numericData 1 ≤ 0 then []
          else [{ typeId := event.typeIndex, rowNumberCollapsed := -1,
                  glyphCount := narrowToInt (event.numericData 0) }]) ++
         (if event.numericData 2 ≤ 0 then []
          else [{ typeId := event.typeIndex, rowNumberCollapsed := -1,
                  glyphCount := narrowToInt (event.numericData 0) }])) ∧
    (-2147483648 ≤ event.numericData 0 → event.numericData 0 < 2147483648 →
      narrowToInt (event.numericData 0) = event.numericData 0) := by
  refine ⟨?_, ?_, ?_⟩
  · unfold loadEvent
    simp only [hacc, Bool.not_true, Bool.false_eq_true, if_false, htype]
    rw [insert_ranges, insert_ranges, insert_fst, List.append_assoc]
  · unfold loadEvent
    simp only [hacc, Bool.not_true, Bool.false_eq_true, if_false, htype]
    rw [insert_m_data _ (insert_wellFormed m hwf _ _ _ _ _), insert_m_data m hwf,
      List.append_assoc]
  · intro h1 h2
    unfold narrowToInt
    omega

theorem glyph_rule_witness :
    (loadEvent acceptAll adaptationTypes emptyStore glyphEventPair).ranges =
      [⟨92, 5, 12⟩, ⟨97, 3, 13⟩] ∧
    (loadEvent acceptAll adaptationTypes emptyStore glyphEventPair).m_data =
      [⟨0, -1, 7⟩, ⟨0, -1, 7⟩] :=
  ⟨(glyph_rule acceptAll adaptationTypes emptyStore glyphEventPair (by decide) (by decide)
      (by decide)).1.trans (by decide),
   (glyph_rule acceptAll adaptationTypes emptyStore glyphEventPair (by decide) (by decide)
      (by decide)).2.1.trans (by decide)⟩

/-! ## What insert returns -/

/-- C16, as stated, fails: inserting an interval with the duration 3 into an empty store
stores it at index 0 and returns 3. -/
theorem insert_returns_index_counterexample :
    (emptyStore.insert 5 3 1 .Polish (-1)).2.ranges.getD 0 default = ⟨5, 3, 0⟩ ∧
    (emptyStore.insert 5 3 1 .Polish (-1)).2.count = 1 ∧
    (emptyStore.insert 5 3 1 .Polish (-1)).1 = 3 ∧
    (emptyStore.insert 5 3 1 .Polish (-1)).1 ≠ 0 := by
  decide

/-- C16, amended: with a duration `> 0`, insert returns the duration; the new interval and
its data are stored at the index that was the count before the call. -/
theorem insert_returns_duration (m : SceneGraphTimelineModel) (hwf : m.WellFormed)
    (start duration typeIndex : Int) (stage : SceneGraphStage) (glyphCount : Int)
    (hd : 0 < duration) :
    (m.insert start duration typeIndex stage glyphCount).1 = duration ∧
    (m.insert start duration typeIndex stage glyphCount).2.count = m.count + 1 ∧
    (m.insert start duration typeIndex stage glyphCount).2.ranges.getD m.count default =
      { start := start, duration := duration, selectionId := stage.toInt } ∧
    (m.insert start duration typeIndex stage glyphCount).2.m_data.getD m.count default =
      { typeId := typeIndex, rowNumberCollapsed := -1, glyphCount := glyphCount } := by
  have h : ¬ duration ≤ 0 := not_le.mpr hd
  have h1 := insert_fst m start duration typeIndex stage glyphCount
  have h2 := insert_ranges m start duration typeIndex stage glyphCount
  have h3 := insert_m_data m hwf start duration typeIndex stage glyphCount
  simp only [h, if_false] at h1 h2 h3
  have hlen : m.m_data.length = m.count := hwf
  refine ⟨h1, ?_, ?_, ?_⟩
  · unfold count
    rw [h2]
    simp
  · rw [h2]
    unfold count
    simp
  · rw [h3, ← hlen]
    simp

theorem insert_returns_duration_witness :
    (singleStore.insert 5 3 1 .Polish (-1)).1 = 3 ∧
    (singleStore.insert 5 3 1 .Polish (-1)).2.count = singleStore.count + 1 ∧
    (singleStore.insert 5 3 1 .Polish (-1)).2.ranges.getD singleStore.count default =
      { start := 5, duration := 3, selectionId := SceneGraphStage.Polish.toInt } ∧
    (singleStore.insert 5 3 1 .Polish (-1)).2.m_data.getD singleStore.count default =
      { typeId := 1, rowNumberCollapsed := -1, glyphCount := -1 } :=
  insert_returns_duration singleStore (by decide) 5 3 1 .Polish (-1) (by decide)

/-! ## One category per event -/

theorem ruleStages_category (t : SceneGraphFrameType) :
    ∀ s ∈ (ruleStages t).map (fun p => p.2.toInt), categoryRow s = eventCategory t := by
  cases t <;> first
    | decide
    | (intro s hs; simp [ruleStages] at hs)

theorem ruleStages_increasing (t : SceneGraphFrameType) :
    ((ruleStages t).map (fun p => p.2.toInt)).Pairwise (fun a b => a < b) := by
  cases t <;> first
    | decide
    | exact List.Pairwise.nil

/-- The stages of the ranges an event yields are stages of its rule, in rule order. -/
theorem reconstruct_stages (t : SceneGraphFrameType) (event : QmlEventData) :
    ((reconstruct t event).map Range.selectionId).Sublist
      ((ruleStages t).map (fun p => p.2.toInt)) := by
  have h := walk_stages ((ruleStages t).map (fun p => (event.numericData p.1, p.2)))
    (event.startTime - usedSum t event)
  simpa [reconstruct, List.map_map, Function.comp_def] using h

/-- C21: one category per event. The intervals that the loop body of loadData stores for an
event all have stages of the category named for its detail type (GUI thread for
polish-and-sync, polish and animation frames, render thread for render loop frames, render
thread details for renderer, context, adaptation layer and texture frames), and their stage
ordinals are strictly increasing in the order in which they are stored. -/
theorem one_category_per_event (accepted : QmlEventTypeData → Bool)
    (types : Int → QmlEventTypeData) (m : SceneGraphTimelineModel) (event : QmlEventData) :
    ∃ stored : List Range,
      (loadEvent accepted types m event).ranges = m.ranges ++ stored ∧
      (accepted (types event.typeIndex) = true →
        stored = reconstruct (types event.typeIndex).detailType event) ∧
      (∀ r ∈ stored,
        categoryRow r.selectionId = eventCategory (types event.typeIndex).detailType) ∧
      stored.Pairwise (fun a b => a.selectionId < b.selectionId) := by
  by_cases hacc : accepted (types event.typeIndex) = true
  · refine ⟨reconstruct (types event.typeIndex).detailType event,
      loadEvent_ranges accepted types m event hacc, fun _ => rfl, ?_, ?_⟩
    · intro r hr
      apply ruleStages_category
      exact (reconstruct_stages _ event).subset (List.mem_map_of_mem _ hr)
    · have h := (ruleStages_increasing (types event.typeIndex).detailType).sublist
        (reconstruct_stages _ event)
      exact List.pairwise_map.mp h
  · refine ⟨[], ?_, fun h => absurd h hacc, ?_, List.Pairwise.nil⟩
    · rw [loadEvent_not_accepted accepted types m event (by simpa using hacc)]
      simp
    · intro r hr
      simp at hr

theorem one_category_per_event_witness :
    ∃ stored : List Range,
      (loadEvent acceptAll textureTypes emptyStore textureEvent).ranges =
        emptyStore.ranges ++ stored ∧
      (acceptAll (textureTypes textureEvent.typeIndex) = true →
        stored = reconstruct (textureTypes textureEvent.typeIndex).detailType textureEvent) ∧
      (∀ r ∈ stored,
        categoryRow r.selectionId =
          eventCategory (textureTypes textureEvent.typeIndex).detailType) ∧
      stored.Pairwise (fun a b => a.selectionId < b.selectionId) :=
  one_category_per_event acceptAll textureTypes emptyStore textureEvent

/-- A texture preparation frame with five positive values stores five intervals, with the
stages 14 to 18, all of the render thread details category. -/
theorem one_category_per_event_example :
    (loadEvent acceptAll textureTypes emptyStore textureEvent).ranges.map Range.selectionId =
      [14, 15, 16, 17, 18] ∧
    (loadEvent acceptAll textureTypes emptyStore textureEvent).ranges.map
      (fun r => categoryRow r.selectionId) = [2, 2, 2, 2, 2] := by
  decide

/-! ## When a pass stores its intervals in start order -/

theorem foldl_loadEvent_ranges (accepted : QmlEventTypeData → Bool)
    (types : Int → QmlEventTypeData) (events : List QmlEventData) :
    ∀ m : SceneGraphTimelineModel, (∀ e ∈ events, accepted (types e.typeIndex) = true) →
      (events.foldl (loadEvent accepted types) m).ranges =
        m.ranges ++ reconstructAll types events := by
  induction events with
  | nil => intro m _; simp [reconstructAll]
  | cons e rest ih =>
    intro m hacc
    rw [List.foldl_cons, ih _ (fun e2 h => hacc e2 (List.mem_cons_of_mem _ h)),
      loadEvent_ranges accepted types m e (hacc e (List.mem_cons_self _ _)), List.append_assoc]
    rfl

theorem walk_eq_nil (l : List (Int × SceneGraphStage)) :
    ∀ c, walk c l = [] ↔ ∀ p ∈ l, p.1 ≤ 0 := by
  induction l with
  | nil => intro c; simp [walk]
  | cons p rest ih =>
    intro c
    obtain ⟨d, stage⟩ := p
    by_cases hd : d ≤ 0
    · simp only [walk, hd, if_true, List.nil_append, List.mem_cons, forall_eq_or_imp, true_and]
      exact ih _
    · simp [walk, hd]

theorem lastPositive_nonneg (l : List Int) : 0 ≤ lastPositive l := by
  induction l with
  | nil => simp [lastPositive]
  | cons v rest ih =>
    simp only [lastPositive]
    split_ifs <;> omega

theorem lastPositive_eq_zero (l : List Int) : lastPositive l = 0 ↔ ∀ v ∈ l, v ≤ 0 := by
  induction l with
  | nil => simp [lastPositive]
  | cons v rest ih =>
    have h0 := lastPositive_nonneg rest
    simp only [lastPositive, List.mem_cons, forall_eq_or_imp]
    rw [← ih]
    split_ifs <;> constructor <;> intro h <;> omega

/-- The last range of a chain of insert calls has the last positive duration. -/
theorem walk_last_duration (l : List (Int × SceneGraphStage)) :
    ∀ c, ∀ r ∈ (walk c l).getLast?, r.duration = lastPositive (l.map Prod.fst) := by
  induction l with
  | nil => intro c r hr; simp [walk] at hr
  | cons p rest ih =>
    intro c r hr
    obtain ⟨d, stage⟩ := p
    simp only [walk, List.getLast?_append] at hr
    simp only [List.map_cons, lastPositive]
    cases hw : (walk (c + if d ≤ 0 then 0 else d) rest).getLast? with
    | some y =>
      rw [hw] at hr
      simp only [Option.or, Option.mem_def, Option.some.injEq] at hr
      subst hr
      have hy := ih _ y hw
      have hne : walk (c + if d ≤ 0 then 0 else d) rest ≠ [] := by
        intro h
        rw [h] at hw
        simp at hw
      have hpos : lastPositive (rest.map Prod.fst) ≠ 0 := by
        intro h
        rw [lastPositive_eq_zero] at h
        apply hne
        rw [walk_eq_nil]
        intro p hp
        exact h p.1 (List.mem_map_of_mem _ hp)
      have := lastPositive_nonneg (rest.map Prod.fst)
      rw [if_pos (by omega)]
      exact hy
    | none =>
      rw [hw] at hr
      rw [List.getLast?_eq_none_iff, walk_eq_nil] at hw
      have hz : lastPositive (rest.map Prod.fst) = 0 := by
        rw [lastPositive_eq_zero]
        intro v hv
        obtain ⟨p, hp, rfl⟩ := List.mem_map.mp hv
        exact hw p hp
      rw [hz]
      simp only [lt_self_iff_false, if_false]
      by_cases hd : d ≤ 0
      · simp [hd] at hr
      · simp only [hd, if_false, Option.or, List.getLast?_singleton, Option.mem_def,
          Option.some.injEq] at hr
        subst hr
        simp [not_le.mp hd]

theorem sorted_le_last (l : List Range) (h : l.Pairwise (fun a b : Range => a.start ≤ b.start)) :
    ∀ a ∈ l, ∀ b ∈ l.getLast?, a.start ≤ b.start := by
  induction l with
  | nil => intro a ha; simp at ha
  | cons x xs ih =>
    intro a ha b hb
    rw [List.pairwise_cons] at h
    cases xs with
    | nil =>
      simp only [List.mem_singleton] at ha
      simp only [List.getLast?_singleton, Option.mem_def, Option.some.injEq] at hb
      subst ha hb
      exact le_refl _
    | cons y ys =>
      rw [List.getLast?_cons_cons] at hb
      rcases List.mem_cons.mp ha with h1 | h1
      · subst h1
        exact h.1 b (List.mem_of_mem_getLast? hb)
      · exact ih h.2 a h1 b hb

theorem sum_pos_of_nonneg (l : List Int) (hnn : ∀ v ∈ l, 0 ≤ v) :
    0 < l.sum ↔ ∃ v ∈ l, 0 < v := by
  induction l with
  | nil => simp
  | cons v rest ih =>
    have hv := hnn v (List.mem_cons_self _ _)
    have hrest : ∀ w ∈ rest, 0 ≤ w := fun w hw => hnn w (List.mem_cons_of_mem _ hw)
    have hs : 0 ≤ rest.sum := List.sum_nonneg hrest
    simp only [List.sum_cons, List.mem_cons, exists_eq_or_imp]
    rw [← ih hrest]
    constructor
    · intro h
      by_cases h1 : 0 < v
      · exact Or.inl h1
      · exact Or.inr (by omega)
    · rintro (h | h) <;> omega

/-- An event with non-negative used values that do not add up to a positive sum stores
nothing. -/
theorem reconstruct_eq_nil (t : SceneGraphFrameType) (event : QmlEventData)
    (hnn : ∀ v ∈ usedValues t event, 0 ≤ v) (hsum : ¬ 0 < usedSum t event) :
    reconstruct t event = [] := by
  unfold reconstruct
  rw [walk_eq_nil]
  intro p hp
  have h1 : ¬ ∃ v ∈ usedValues t event, 0 < v := by
    rw [← sum_pos_of_nonneg _ hnn]
    exact hsum
  have h2 : p.1 ∈ usedValues t event := by
    rw [← map_fst_ruleValues]
    exact List.mem_map_of_mem _ hp
  by_contra h3
  exact h1 ⟨p.1, h2, not_le.mp h3⟩

/-- An event with non-negative used values of a positive sum stores intervals: the first one
starts at the start of the span, the last one at the timestamp minus the last positive used
value, and all of them start between these two instants. -/
theorem reconstruct_bounds (types : Int → QmlEventTypeData) (event : QmlEventData)
    (hnn : ∀ v ∈ usedValues (types event.typeIndex).detailType event, 0 ≤ v)
    (hsum : 0 < usedSum (types event.typeIndex).detailType event) :
    (∃ r ∈ reconstruct (types event.typeIndex).detailType event,
      r.start = spanStart types event) ∧
    (∃ r ∈ reconstruct (types event.typeIndex).detailType event,
      r.start = lastStart types event) ∧
    (∀ r ∈ reconstruct (types event.typeIndex).detailType event,
      spanStart types event ≤ r.start ∧ r.start ≤ lastStart types event) := by
  have hnn2 := ruleValues_nonneg (types event.typeIndex).detailType event hnn
  obtain ⟨_, w2, w3, _, w5⟩ := walk_spec _
    (event.startTime - usedSum (types event.typeIndex).detailType event) hnn2
  have hsorted := walk_sorted _
    (event.startTime - usedSum (types event.typeIndex).detailType event) hnn2
  have hlast := walk_last_duration
    ((ruleStages (types event.typeIndex).detailType).map
      (fun p => (event.numericData p.1, p.2)))
    (event.startTime - usedSum (types event.typeIndex).detailType event)
  rw [map_fst_ruleValues] at w3 hlast
  have hne : reconstruct (types event.typeIndex).detailType event ≠ [] := by
    intro h
    unfold reconstruct at h
    rw [walk_eq_nil] at h
    obtain ⟨v, hv, hpos⟩ := (sum_pos_of_nonneg _ hnn).mp hsum
    rw [← map_fst_ruleValues] at hv
    obtain ⟨p, hp, rfl⟩ := List.mem_map.mp hv
    have := h p hp
    omega
  have hlastStart : ∀ r ∈ (reconstruct (types event.typeIndex).detailType event).getLast?,
      r.start = lastStart types event := by
    intro r hr
    have h1 := w3 r hr
    have h2 := hlast r hr
    unfold lastStart
    unfold usedSum at h1
    omega
  obtain ⟨first, hfirst⟩ := Option.isSome_iff_exists.mp (List.head?_isSome.mpr hne)
  obtain ⟨last, hlast2⟩ := Option.isSome_iff_exists.mp (List.getLast?_isSome.mpr hne)
  refine ⟨⟨first, List.mem_of_mem_head? hfirst, w2 first hfirst⟩,
    ⟨last, List.mem_of_mem_getLast? hlast2, hlastStart last hlast2⟩, ?_⟩
  intro r hr
  refine ⟨(w5 r hr).1, ?_⟩
  rw [← hlastStart last hlast2]
  exact sorted_le_last _ hsorted r hr last hlast2

/-- The ranges of a list of events with non-negative used values are in start order, and
start no earlier than `previous`, exactly when the spans follow the stored intervals. -/
theorem reconstructAll_sorted_iff (types : Int → QmlEventTypeData) (events : List QmlEventData) :
    (∀ e ∈ events, ∀ v ∈ usedValues (types e.typeIndex).detailType e, 0 ≤ v) →
    ∀ previous : Option Int,
      ((reconstructAll types events).Pairwise (fun a b : Range => a.start ≤ b.start) ∧
        ∀ p ∈ previous, ∀ b ∈ reconstructAll types events, p ≤ b.start) ↔
      startsInOrder types previous events = true := by
  induction events with
  | nil =>
    intro _ previous
    simp [reconstructAll, startsInOrder]
  | cons e rest ih =>
    intro hnn previous
    have hnne := hnn e (List.mem_cons_self _ _)
    have ih2 := ih (fun e2 h => hnn e2 (List.mem_cons_of_mem _ h))
    by_cases hsum : 0 < usedSum (types e.typeIndex).detailType e
    · obtain ⟨⟨first, hf1, hf2⟩, ⟨last, hl1, hl2⟩, hb⟩ := reconstruct_bounds types e hnne hsum
      have hsorted : (reconstruct (types e.typeIndex).detailType e).Pairwise
          (fun a b : Range => a.start ≤ b.start) :=
        walk_sorted _ _ (ruleValues_nonneg _ e hnne)
      have hstep : startsInOrder types previous (e :: rest) =
          ((match previous with
            | none => true
            | some p => decide (p ≤ spanStart types e)) &&
          startsInOrder types (some (lastStart types e)) rest) := by
        simp only [startsInOrder, if_pos hsum]
        try rfl
      rw [hstep, Bool.and_eq_true, ← ih2 (some (lastStart types e))]
      simp only [reconstructAll, List.pairwise_append, List.mem_append, Option.mem_def,
        Option.some.injEq, forall_eq']
      constructor
      · rintro ⟨⟨_, h2, h3⟩, h4⟩
        refine ⟨?_, h2, fun b hb2 => ?_⟩
        · cases previous with
          | none => rfl
          | some p =>
            simp only [decide_eq_true_eq]
            rw [← hf2]
            exact h4 p rfl first (Or.inl hf1)
        · rw [← hl2]
          exact h3 last hl1 b hb2
      · rintro ⟨h1, h2, h3⟩
        refine ⟨⟨hsorted, h2, fun a ha b hb2 => ?_⟩, fun p hp b hb2 => ?_⟩
        · have := (hb a ha).2
          have := h3 b hb2
          omega
        · subst hp
          simp only [decide_eq_true_eq] at h1
          rcases hb2 with hb2 | hb2
          · have := (hb b hb2).1
            omega
          · have := h3 b hb2
            have := (hb first hf1).2
            omega
    · have hnil := reconstruct_eq_nil (types e.typeIndex).detailType e hnne hsum
      have hstep : startsInOrder types previous (e :: rest) =
          startsInOrder types previous rest := by
        simp only [startsInOrder, if_neg hsum]
      rw [hstep, ← ih2 previous]
      simp only [reconstructAll, hnil, List.nil_append]

/-- C10, amended: for accepted events with non-negative used auxiliary values, the intervals
that loadData puts into an empty store have non-decreasing start times in the order of their
insertion exactly when every event that stores an interval starts its span (timestamp minus
the sum of its used values) no earlier than the last interval stored before it starts (the
timestamp of the event that stored it minus the last positive used value of that event). -/
theorem start_order_iff_spans_follow (accepted : QmlEventTypeData → Bool)
    (types : Int → QmlEventTypeData) (events : List QmlEventData) (c x : Int)
    (hacc : ∀ e ∈ events, accepted (types e.typeIndex) = true)
    (hnn : ∀ e ∈ events, ∀ v ∈ usedValues (types e.typeIndex).detailType e, 0 ≤ v) :
    (loadData accepted types events
      (SceneGraphTimelineModel.mk [] [] c x)).ranges.Pairwise (fun a b => a.start ≤ b.start) ↔
    startsInOrder types none events = true := by
  rw [loadData_ranges, foldl_loadEvent_ranges accepted types events _ hacc,
    ← reconstructAll_sorted_iff types events hnn none]
  simp

theorem start_order_iff_spans_follow_witness :
    (loadData acceptAll polishTypes overlappingPolishEvents
      (SceneGraphTimelineModel.mk [] [] 0 0)).ranges.Pairwise (fun a b => a.start ≤ b.start) ∧
    (loadData acceptAll renderLoopTypes overlappingRenderLoopEvents
      (SceneGraphTimelineModel.mk [] [] 0 0)).ranges.Pairwise (fun a b => a.start ≤ b.start) ∧
    startsInOrder polishTypes none nestedPolishEvents = false :=
  ⟨(start_order_iff_spans_follow acceptAll polishTypes overlappingPolishEvents 0 0 (by decide)
      (by decide)).mpr (by decide),
   (start_order_iff_spans_follow acceptAll renderLoopTypes overlappingRenderLoopEvents 0 0
      (by decide) (by decide)).mpr (by decide),
   by decide⟩

end SceneGraphTimelineModel

end QmlProfilerExtension

